import Mathlib

/-!
Shallow embedding of the lesson-plan-app document-generation subsystem.

The embedding covers:
* the lesson-plan data model (`src/types/lesson.ts`),
* the CTE template filler and its helpers (`src/lib/document-generator/cte-template-filler.ts`):
  schedule/differentiation/overview text builders, the keyword inference classifiers,
  checkbox marking, the string-pattern row/cell scanner, and `fillCTETemplate`,
* the handout component grid builders (`src/lib/document-generator/handout-components.ts`),
* the student-handout filename derivation (`src/lib/document-generator/student-handout-generator.ts`),
* the orchestrator `generateAllDocuments` (`src/lib/document-generator/index.ts`).

JavaScript strings are modelled as Lean `String`/`List Char`; JS string truthiness is
non-emptiness; optional (possibly `undefined`) fields are `Option`; functions that `throw`
return `Except String`.  The external ZIP library is modelled as a list of named parts and
the external `docx` document builder as an explicit document tree.
-/

/-! ## Data model (src/types/lesson.ts) -/

structure ScheduleItem where
  time : String
  name : String
  description : String
  deriving Repr, DecidableEq

structure Differentiation where
  Advanced : String
  Struggling : String
  ELL : String
  deriving Repr, DecidableEq

structure DayPlan where
  day_label : Option String
  topic : String
  objectives : List String
  day_materials : List String
  schedule : List ScheduleItem
  vocabulary : List (String × String)
  differentiation : Differentiation
  teacher_notes : String
  content_standards : String
  overview : Option String
  materials : Option (List String)
  methods : Option (List String)
  assessment : Option (List String)
  deriving Repr, DecidableEq

structure HandoutSection where
  heading : String
  numbered : Option Bool
  items : List String
  content : Option String
  blank_lines : Option Nat
  deriving Repr, DecidableEq

structure StudentHandout where
  name : String
  title : String
  subtitle : String
  instructions : String
  sections : List HandoutSection
  vocabulary : Option (List (String × String))
  questions : Option (List String)
  tips : Option (List String)
  deriving Repr, DecidableEq

structure LessonPlanInput where
  week : String
  unit : String
  week_focus : String
  week_overview : String
  week_objectives : List String
  week_materials : List String
  formative_assessment : String
  summative_assessment : String
  weekly_deliverable : String
  days : List DayPlan
  vocabulary_summary : Option (List (String × String))
  teacher_notes : Option (List String)
  standards_alignment : String
  student_handouts : Option (List StudentHandout)
  skip_presentations : Option Bool
  deriving Repr, DecidableEq

/-! ## Generic string helpers (JS semantics) -/

/-- JS string truthiness: a string is truthy iff it is non-empty. -/
def jsTruthy (s : String) : Bool := decide (s ≠ "")

/-- Contiguous-sublist test on character lists. -/
def listContains (needle : List Char) : List Char → Bool
  | [] => needle.isEmpty
  | c :: rest => needle.isPrefixOf (c :: rest) || listContains needle rest

/-- Substring test, the semantics of `RegExp.test` for a single literal alternative. -/
def containsSub (needle haystack : String) : Bool :=
  listContains needle.toList haystack.toList

/-- `RegExp.test` for an alternation of literal alternatives (`/a|b|c/.test(text)`). -/
def testAny (alts : List String) (text : String) : Bool :=
  alts.any (fun a => containsSub a text)

/-- `Array.prototype.join(sep)` for string lists. -/
def joinWith (sep : String) (l : List String) : String :=
  String.intercalate sep l

/-- `toLowerCase()` over the character list (ASCII case mapping, as in the source's
English keyword matching). -/
def jsToLower (s : String) : String := String.mk (s.toList.map Char.toLower)

/-- Strips a literal prefix if present (used for the anchored `replace(/^pfx/, ...)` calls
on text that has already been lowercased, where the `i` flag is vacuous). -/
def removeLeading (pfx s : String) : String :=
  if pfx.isPrefixOf s then s.drop pfx.length else s

/-! ## Text builders (cte-template-filler.ts) -/

/-- `buildProceduresText`: renders the schedule as one line per activity, joined by
newlines.  An activity with both `time` and `name` renders as
`time - name: description` (the `: description` part only when the description is
non-empty); with an empty `time` it renders as `name: description` / `name`; an activity
whose `name` is empty renders as the empty string and is then removed by
`.filter(Boolean)`.  `proceduresLine` is the per-activity arrow function. -/
def proceduresLine (item : ScheduleItem) : String :=
  let time := item.time
  let name := item.name
  let desc := item.description
  if jsTruthy time && jsTruthy name then
    (if jsTruthy desc then time ++ " - " ++ name ++ ": " ++ desc
     else time ++ " - " ++ name)
  else
    (if jsTruthy name then
      (if jsTruthy desc then name ++ ": " ++ desc else name)
     else "")

def buildProceduresText (schedule : List ScheduleItem) : String :=
  if schedule.isEmpty then ""
  else joinWith "\n" ((schedule.map proceduresLine).filter jsTruthy)

/-- `buildDifferentiationText`: three labelled lines, each present only when non-empty. -/
def buildDifferentiationText (diff : Differentiation) : String :=
  let lines : List String :=
    (if jsTruthy diff.Advanced then ["Advanced Learners: " ++ diff.Advanced] else []) ++
    (if jsTruthy diff.Struggling then ["Struggling Learners: " ++ diff.Struggling] else []) ++
    (if jsTruthy diff.ELL then ["ELL Students: " ++ diff.ELL] else [])
  joinWith "\n" lines

/-- `buildOverviewText`: uses `day.overview` when truthy, otherwise synthesizes a
sentence from the topic and the first objective. -/
def buildOverviewText (day : DayPlan) : String :=
  let ov := day.overview.getD ""
  if jsTruthy ov then ov
  else
    let parts : List String := ["Students will learn about " ++ day.topic ++ "."]
    let parts :=
      match day.objectives with
      | [] => parts
      | obj :: _ =>
        let cleanObj := removeLeading "to " (removeLeading "students will " (jsToLower obj))
        parts ++ ["The primary objective is to " ++ cleanObj ++ "."]
    joinWith " " parts

/-! ## Heuristic inference classifiers (cte-template-filler.ts)

Each classifier lowercases a concatenation of lesson-day free text and tests a fixed
sequence of keyword alternations, pushing the matching keys in source order.  The
uniform classifiers are transcribed as a fold over their (pattern, key) table; the
two classifiers with a non-uniform condition (`inferMethods`, `inferOtherAreas`) are
transcribed as the literal chain of conditionals. -/

/-- The combined lowercased text that `inferMaterials` classifies: topic, overview,
objectives, day materials, and schedule names/descriptions. -/
def materialsAllText (day : DayPlan) : String :=
  (day.topic ++ " " ++ day.overview.getD "" ++ " " ++
    joinWith " " day.objectives ++ " " ++
    joinWith " " day.day_materials ++ " " ++
    joinWith " " (day.schedule.map (fun s => s.name ++ " " ++ s.description)))
    |> jsToLower

/-- The combined lowercased text used by `inferMethods`, `inferAssessment` and
`inferOtherAreas`: topic, overview, objectives, and schedule names/descriptions
(no day materials). -/
def scheduleAllText (day : DayPlan) : String :=
  (day.topic ++ " " ++ day.overview.getD "" ++ " " ++
    joinWith " " day.objectives ++ " " ++
    joinWith " " (day.schedule.map (fun s => s.name ++ " " ++ s.description)))
    |> jsToLower

/-- The combined lowercased text used by `inferCurriculumAreas`: topic, overview and
objectives only. -/
def topicAllText (day : DayPlan) : String :=
  (day.topic ++ " " ++ day.overview.getD "" ++ " " ++
    joinWith " " day.objectives) |> jsToLower

/-- Applies a (pattern, key) table in order, appending the key of every pattern that
matches the text. -/
def applyPatternTable (table : List (List String × String)) (text : String) : List String :=
  table.foldl (fun acc p => if testAny p.1 text then acc ++ [p.2] else acc) []

/-- The keyword table of `inferMaterials`, in source order. -/
def MATERIALS_PATTERNS : List (List String × String) :=
  [ (["presentation", "present", "show", "display", "screen", "projector", "slides",
      "powerpoint"], "projector"),
    (["computer", "premiere", "photoshop", "editing", "software", "digital", "laptop"],
      "computer"),
    (["video", "watch", "film", "movie", "clip", "youtube", "dvd"], "video_dvd"),
    (["lab", "studio", "hands-on", "practice", "filming", "shoot", "record"], "labs"),
    (["audio", "sound", "music", "listen", "speaker", "playback"], "speaker"),
    (["handout", "worksheet", "guide", "reference", "template", "storyboard", "script"],
      "supplemental_materials"),
    (["camera", "tripod", "lighting", "light", "microphone", "mic", "equipment", "gear"],
      "other_equipment"),
    (["journal", "notebook", "notes", "reflection"], "student_journals"),
    (["poster", "chart", "diagram", "visual aid"], "posters") ]

/-- `inferMaterials`: keyword classification of the day's combined text. -/
def inferMaterials (day : DayPlan) : List String :=
  applyPatternTable MATERIALS_PATTERNS (materialsAllText day)

/-- The keyword table of `inferAssessment`, in source order. -/
def ASSESSMENT_PATTERNS : List (List String × String) :=
  [ (["classwork", "class work", "activity", "practice", "exercise", "in-class",
      "exit ticket"], "classwork"),
    (["observ", "monitor", "circulate", "watch", "check in"], "observation"),
    (["project", "final", "deliverable", "portfolio", "create", "produce"],
      "project_based"),
    (["team", "group", "partner", "collaborat", "crew", "together", "peer"], "teamwork"),
    (["perform", "present", "demonstrat", "show", "pitch"], "performance"),
    (["participat", "engag", "on-task", "focused", "active"], "on_task"),
    (["test", "quiz", "exam"], "test"),
    (["homework", "home work", "take home", "assignment"], "homework") ]

/-- `inferAssessment`: keyword classification of the day's combined text. -/
def inferAssessment (day : DayPlan) : List String :=
  applyPatternTable ASSESSMENT_PATTERNS (scheduleAllText day)

/-- The keyword table of `inferCurriculumAreas`, in source order. -/
def CURRICULUM_PATTERNS : List (List String × String) :=
  [ (["camera", "editing", "software", "premiere", "photoshop", "computer", "digital",
      "video", "audio"], "technology"),
    (["script", "writing", "story", "narrative", "interview", "news"], "english"),
    (["reading", "research", "article"], "reading"),
    (["composition", "visual", "design", "aesthetic", "creative", "color", "lighting",
      "framing"], "fine_arts"),
    (["exposure", "ratio", "frame rate", "aperture", "shutter speed", "iso"], "math"),
    (["light", "sound wave", "physics", "optics"], "science"),
    (["history", "documentary", "social", "community", "news", "psa", "public service"],
      "social_studies") ]

/-- `inferCurriculumAreas`: keyword classification of topic/overview/objectives. -/
def inferCurriculumAreas (day : DayPlan) : List String :=
  applyPatternTable CURRICULUM_PATTERNS (topicAllText day)

/-- `inferMethods`: keyword classification; the `lecture` test additionally inspects
the schedule activity names. -/
def inferMethods (day : DayPlan) : List String :=
  let allText := scheduleAllText day
  let activityNames := day.schedule.map (fun s => jsToLower s.name)
  let methods : List String := []
  let methods := if testAny ["discussion", "discuss", "debate", "share", "q&a"] allText
    then methods ++ ["discussion"] else methods
  let methods := if testAny ["demonstrat", "show how", "model", "walk through",
      "tutorial"] allText then methods ++ ["demonstration"] else methods
  let methods := if
      (activityNames.any (fun n =>
        testAny ["direct instruction", "lecture", "mini-lecture", "instruction"] n)) ||
      testAny ["lecture", "direct instruction", "teach", "explain", "present content",
        "introduce"] allText
    then methods ++ ["lecture"] else methods
  let methods := if testAny ["powerpoint", "presentation", "slides"] allText
    then methods ++ ["powerpoint"] else methods
  let methods := if testAny ["video", "multimedia", "multi-media", "youtube", "film",
      "audio", "digital"] allText then methods ++ ["multimedia"] else methods
  let methods := if testAny ["guest speaker", "guest", "industry professional",
      "visitor"] allText then methods ++ ["guest_speaker"] else methods
  methods

/-- JS object truthiness: `day.differentiation` is a required (non-nullable) object in
the data model, so its truthiness test in the source is constantly true. -/
def isTruthyObject (_diff : Differentiation) : Bool := true

/-- `inferOtherAreas`: keyword classification; `varied_learning` additionally tests the
(required, hence truthy) differentiation object, and `integrated_academics` tests the
curriculum-areas list computed by the caller. -/
def inferOtherAreas (day : DayPlan) (curriculumAreas : List String) : List String :=
  let allText := scheduleAllText day
  let otherAreas : List String := []
  let otherAreas := if testAny ["safety", "equipment", "handling", "protective",
      "hazard"] allText then otherAreas ++ ["safety"] else otherAreas
  let otherAreas := if testAny ["time management", "organize", "planning", "schedule",
      "workflow", "deadline"] allText
    then otherAreas ++ ["management_skills"] else otherAreas
  let otherAreas := if testAny ["team", "group", "collaborat", "partner", "crew",
      "together"] allText then otherAreas ++ ["teamwork"] else otherAreas
  let otherAreas := if testAny ["client", "real-world", "live production",
      "community partner"] allText then otherAreas ++ ["live_work"] else otherAreas
  let otherAreas := if testAny ["analyze", "evaluat", "create", "critiqu", "compare",
      "design", "develop"] allText
    then otherAreas ++ ["higher_order_reasoning"] else otherAreas
  let otherAreas := if testAny ["visual", "hands-on", "demonstration", "practice"]
      allText || isTruthyObject day.differentiation
    then otherAreas ++ ["varied_learning"] else otherAreas
  let otherAreas := if testAny ["professional", "responsibility", "deadline", "quality",
      "industry standard"] allText then otherAreas ++ ["work_ethics"] else otherAreas
  let otherAreas := if curriculumAreas.length > 0
    then otherAreas ++ ["integrated_academics"] else otherAreas
  let otherAreas := if testAny ["skillsusa", "ctso", "competition",
      "career development", "leadership"] allText
    then otherAreas ++ ["ctso"] else otherAreas
  let otherAreas := if testAny ["problem", "solve", "troubleshoot", "debug", "fix",
      "challenge", "solution"] allText
    then otherAreas ++ ["problem_solving"] else otherAreas
  otherAreas

/-! ## Checkbox label maps (cte-template-filler.ts), as ordered (key, label) lists -/

def MATERIALS_CHECKBOXES : List (String × String) :=
  [ ("textbook", "Textbook"), ("lab_manual", "Lab Manual"), ("video_dvd", "Video/DVD"),
    ("labs", "Labs"), ("posters", "Posters"), ("speaker", "Speaker"),
    ("projector", "Projector"), ("computer", "Computer"),
    ("supplemental_materials", "Supplemental Materials"),
    ("student_journals", "Student Journals"), ("other_equipment", "Other Equipment") ]

def METHODS_CHECKBOXES : List (String × String) :=
  [ ("discussion", "Discussion"), ("demonstration", "Demonstration"),
    ("lecture", "Lecture"), ("powerpoint", "Power Point"), ("multimedia", "Multi-Media"),
    ("guest_speaker", "Guest Speaker") ]

def ASSESSMENT_CHECKBOXES : List (String × String) :=
  [ ("homework", "Homework"), ("classwork", "Classwork"), ("test", "Test"),
    ("project_based", "Project-based"), ("teamwork", "Teamwork"),
    ("observation", "Teacher Observation"), ("performance", "Performance"),
    ("on_task", "On-Task"), ("other", "Other") ]

def CURRICULUM_CHECKBOXES : List (String × String) :=
  [ ("math", "Math"), ("science", "Science"), ("reading", "Reading"),
    ("social_studies", "Social Studies"), ("english", "English"),
    ("government_economics", "Government/Economics"), ("fine_arts", "Fine Arts"),
    ("foreign_language", "Foreign Language"), ("technology", "Technology") ]

def OTHER_AREAS_CHECKBOXES : List (String × String) :=
  [ ("safety", "Safety"), ("management_skills", "Management Skills"),
    ("teamwork", "Teamwork"), ("live_work", "Live work"),
    ("higher_order_reasoning", "Higher Order Reasoning"),
    ("varied_learning", "Varied Learning"), ("work_ethics", "Work Ethics"),
    ("integrated_academics", "Integrated Academics"), ("ctso", "CTSO"),
    ("problem_solving", "Problem Solving") ]

/-! ## Checkbox marking (`markCheckboxes`)

The source replaces, per selected label, every match of the regex
`_+\s*<label>` (global, case-insensitive) by `X <label>`.  The regex engine is modelled
faithfully for this pattern: a match at a position consumes a greedily-maximal (with
backtracking) run of at least one underscore, then a greedy run of whitespace, then the
label case-insensitively; the global scan emits replacements left to right and resumes
after each match. -/

/-- JS `\s` for the character classes that occur here (ASCII whitespace). -/
def isJsSpace (c : Char) : Bool :=
  c == ' ' || c == '\t' || c == '\n' || c == '\r' || c == '\x0b' || c == '\x0c'

/-- Case-insensitive prefix test on character lists (the regex `i` flag). -/
def prefixCI : List Char → List Char → Bool
  | [], _ => true
  | _ :: _, [] => false
  | a :: as, b :: bs => (a.toLower == b.toLower) && prefixCI as bs

/-- Case-insensitive contiguous-sublist test. -/
def listContainsCI (needle : List Char) : List Char → Bool
  | [] => needle.isEmpty
  | c :: rest => prefixCI needle (c :: rest) || listContainsCI needle rest

/-- Length of the maximal run of characters satisfying `p` at the head of the list. -/
def countLeadingP (p : Char → Bool) : List Char → Nat
  | [] => 0
  | c :: rest => if p c then countLeadingP p rest + 1 else 0

/-- Greedy-with-backtracking search for `\s*<label>` in `rest`, trying `w` skipped
whitespace characters from the given maximum down to zero; returns the number of
characters consumed. -/
def tryWs (label rest : List Char) : Nat → Option Nat
  | 0 => if prefixCI label rest then some label.length else none
  | w + 1 =>
    if prefixCI label (rest.drop (w + 1)) then some (w + 1 + label.length)
    else tryWs label rest w

/-- Greedy-with-backtracking search for `_+\s*<label>` consuming `u` underscores, from
the maximal run length down to one; returns the number of characters consumed. -/
def tryUnderscores (label s : List Char) : Nat → Option Nat
  | 0 => none
  | u + 1 =>
    let rest := s.drop (u + 1)
    match tryWs label rest (countLeadingP isJsSpace rest) with
    | some n => some (u + 1 + n)
    | none => tryUnderscores label s u

/-- Length of the regex match of `_+\s*<label>` at the head of `s`, if any. -/
def placeholderMatchLen (label s : List Char) : Option Nat :=
  tryUnderscores label s (countLeadingP (fun c => c == '_') s)

/-- Global regex replace of `_+\s*<label>` by `X <label>`
(`text.replace(pattern, "X " + label)`), structured over a character-count fuel: a
match always consumes at least one character (it contains at least one underscore), so
a fuel equal to the input length never runs out. -/
def replacePlaceholderRunsF (label : List Char) : Nat → List Char → List Char
  | _, [] => []
  | 0, s => s
  | fuel + 1, c :: rest =>
    match placeholderMatchLen label (c :: rest) with
    | some n =>
      ('X' :: ' ' :: label) ++ replacePlaceholderRunsF label fuel ((c :: rest).drop n)
    | none => c :: replacePlaceholderRunsF label fuel rest

def replacePlaceholderRuns (label s : List Char) : List Char :=
  replacePlaceholderRunsF label s.length s

/-- `markCheckboxes`: for each map entry whose key is selected, globally replace the
underscore placeholder pattern of its label by `X <label>`. -/
def markCheckboxes (text : String) (checkboxMap : List (String × String))
    (selected : List String) : String :=
  checkboxMap.foldl (fun result kv =>
    if selected.contains kv.1 then
      String.mk (replacePlaceholderRuns kv.2.toList result.toList)
    else result) text

/-! ## Cell text surgery (`setCellText`)

The source first strips red "fill me in" color runs with three global regex removals,
then either rewrites the existing `<w:t>` runs (putting the new text in the first run
and clearing the rest) or, for a cell with no text run at all, synthesizes a run inside
the first paragraph. -/

/-- Index of the first occurrence of `needle` in the list, if any. -/
def findSub (needle : List Char) : List Char → Option Nat
  | [] => if needle.isEmpty then some 0 else none
  | c :: rest =>
    if needle.isPrefixOf (c :: rest) then some 0
    else (findSub needle rest).map (· + 1)

/-- Length of a match of `<w:color[^>]*VAL[^>]*\/>` at the head of `s`, where `valTest`
expresses the `VAL` part on the `>`-free segment between `<w:color` and the final `/`.
A match is: the (case-insensitive) prefix `<w:color`, then the characters up to the
first `>`, which must end in `/` and satisfy `valTest`. -/
def colorMatchLen (valTest : List Char → Bool) (s : List Char) : Option Nat :=
  let pfx := "<w:color".toList
  if prefixCI pfx s then
    match findSub ['>'] (s.drop pfx.length) with
    | none => none
    | some g =>
      let seg := (s.drop pfx.length).take g
      if seg.getLast? == some '/' && valTest seg.dropLast then
        some (pfx.length + g + 1)
      else none
  else none

/-- Global removal of all matches of a red-color run pattern
(`result.replace(pattern, "")`); fuel as in `replacePlaceholderRunsF` (every match
consumes at least the opening tag). -/
def removeColorRunsF (valTest : List Char → Bool) : Nat → List Char → List Char
  | _, [] => []
  | 0, s => s
  | fuel + 1, c :: rest =>
    match colorMatchLen valTest (c :: rest) with
    | some n => removeColorRunsF valTest fuel ((c :: rest).drop n)
    | none => c :: removeColorRunsF valTest fuel rest

def removeColorRuns (valTest : List Char → Bool) (s : List Char) : List Char :=
  removeColorRunsF valTest s.length s

/-- The `VAL` test of the third color pattern: a case-insensitive occurrence of
`w:val="` followed by two hex digits (`[A-F0-9]` under the `i` flag) and `0000"`. -/
def isHexCI (c : Char) : Bool :=
  c.isDigit || ('A' ≤ c && c ≤ 'F') || ('a' ≤ c && c ≤ 'f')

def redValAt (s : List Char) : Bool :=
  prefixCI "w:val=\"".toList s &&
  (match s.drop 7 with
   | c1 :: c2 :: rest => isHexCI c1 && isHexCI c2 && "0000\"".toList.isPrefixOf rest
   | _ => false)

def hasRedVal : List Char → Bool
  | [] => false
  | c :: rest => redValAt (c :: rest) || hasRedVal rest

/-- XML escaping of the new cell text: the source's three sequential global replaces
(`&`→`&amp;`, `<`→`&lt;`, `>`→`&gt;`); as the first introduces no `<` or `>`, the
sequence equals this single character map. -/
def escapeXmlText (s : String) : String :=
  String.join (s.toList.map (fun c =>
    if c == '&' then "&amp;"
    else if c == '<' then "&lt;"
    else if c == '>' then "&gt;"
    else String.mk [c]))

/-- `/<w:t[\s>]/.test(result) || /<w:t\/>/.test(result)`. -/
def hasTextElAt (s : List Char) : Bool :=
  ("<w:t".toList.isPrefixOf s &&
    (match s.drop 4 with
     | c :: _ => isJsSpace c || c == '>'
     | [] => false)) ||
  "<w:t/>".toList.isPrefixOf s

def hasTextElements : List Char → Bool
  | [] => false
  | c :: rest => hasTextElAt (c :: rest) || hasTextElements rest

/-- Length of a match of `<w:t[^>]*>([^<]*)<\/w:t>` at the head of `s`: the prefix
`<w:t`, the characters up to the first `>`, then the `<`-free body, then the literal
closing tag at the first `<`. -/
def wtMatchLen (s : List Char) : Option Nat :=
  if "<w:t".toList.isPrefixOf s then
    match findSub ['>'] (s.drop 4) with
    | none => none
    | some g =>
      let openLen := 4 + g + 1
      let body := s.drop openLen
      match findSub ['<'] body with
      | none => none
      | some d =>
        if "</w:t>".toList.isPrefixOf (body.drop d) then some (openLen + d + 6)
        else none
  else none

/-- Global replace of the `<w:t...>...</w:t>` runs: the first run receives the escaped
text with `xml:space="preserve"`, every later run is cleared; fuel as above. -/
def replaceWtRunsF (escaped : List Char) : Nat → Nat → List Char → List Char
  | _, _, [] => []
  | 0, _, s => s
  | fuel + 1, idx, c :: rest =>
    match wtMatchLen (c :: rest) with
    | some n =>
      (if idx = 0 then
        "<w:t xml:space=\"preserve\">".toList ++ escaped ++ "</w:t>".toList
       else "<w:t></w:t>".toList) ++
      replaceWtRunsF escaped fuel (idx + 1) ((c :: rest).drop n)
    | none => c :: replaceWtRunsF escaped fuel idx rest

def replaceWtRuns (escaped : List Char) (idx : Nat) (s : List Char) : List Char :=
  replaceWtRunsF escaped s.length idx s

/-- Length of a match of `<tagPfx[^>]*>([\s\S]*?)<closeTag>` at the head of `s`:
the opening prefix, the characters up to the first `>`, then the lazily shortest body
up to the first occurrence of the closing tag. -/
def completeMatchLen (openPfx closeTag s : List Char) : Option Nat :=
  if openPfx.isPrefixOf s then
    match findSub ['>'] (s.drop openPfx.length) with
    | none => none
    | some g =>
      let openLen := openPfx.length + g + 1
      match findSub closeTag (s.drop openLen) with
      | none => none
      | some d => some (openLen + d + closeTag.length)
  else none


/-- The empty-cell branch of `setCellText`: a single (non-global) replace of
`(<w:p[^>]*>)([\s\S]*?)(<\/w:p>)` by `$1$2<newRun>$3`, i.e. the synthesized run is
inserted before the closing tag of the first paragraph match. -/
def insertRunFirstPara (newRun : List Char) : List Char → List Char
  | [] => []
  | c :: rest =>
    match completeMatchLen "<w:p".toList "</w:p>".toList (c :: rest) with
    | some n =>
      let m := (c :: rest).take n
      (m.take (n - 6) ++ newRun ++ "</w:p>".toList) ++ (c :: rest).drop n
    | none => c :: insertRunFirstPara newRun rest

/-- `setCellText`: strips red color runs, then replaces the text runs (or synthesizes
one in the first paragraph of a cell with no text run). -/
def setCellText (cellXml newText : String) : String :=
  let r0 := removeColorRuns (listContainsCI "w:val=\"FF0000\"".toList) cellXml.toList
  let r1 := removeColorRuns (listContainsCI "w:val=\"C00000\"".toList) r0
  let r2 := removeColorRuns hasRedVal r1
  let escaped := (escapeXmlText newText).toList
  if hasTextElements r2 then
    String.mk (replaceWtRuns escaped 0 r2)
  else
    let newRun :=
      "<w:r><w:t xml:space=\"preserve\">".toList ++ escaped ++ "</w:t></w:r>".toList
    String.mk (insertRunFirstPara newRun r2)

/-! ## Row/cell structural scanning (`getTableCells`, `replaceCell`) -/

/-- All non-overlapping matches of `<tagPfx[^>]*>[\s\S]*?<closeTag>` scanned left to
right, as the regex `exec` loop does; fuel as above (a match consumes at least its
opening character). -/
def scanMatchesF (openPfx closeTag : List Char) : Nat → List Char → List (List Char)
  | _, [] => []
  | 0, _ => []
  | fuel + 1, c :: rest =>
    match completeMatchLen openPfx closeTag (c :: rest) with
    | some n =>
      (c :: rest).take n :: scanMatchesF openPfx closeTag fuel ((c :: rest).drop n)
    | none => scanMatchesF openPfx closeTag fuel rest

def scanMatches (openPfx closeTag : List Char) (s : List Char) : List (List Char) :=
  scanMatchesF openPfx closeTag s.length s

/-- Global regex replace where the replacement may depend on the running match index
(`String.replace` with a callback and mutable counters in the source); fuel as above. -/
def replaceMatchesIdxF (openPfx closeTag : List Char) (f : Nat → List Char → List Char) :
    Nat → Nat → List Char → List Char
  | _, _, [] => []
  | 0, _, s => s
  | fuel + 1, idx, c :: rest =>
    match completeMatchLen openPfx closeTag (c :: rest) with
    | some n =>
      f idx ((c :: rest).take n) ++
        replaceMatchesIdxF openPfx closeTag f fuel (idx + 1) ((c :: rest).drop n)
    | none => c :: replaceMatchesIdxF openPfx closeTag f fuel idx rest

def replaceMatchesIdx (openPfx closeTag : List Char) (f : Nat → List Char → List Char)
    (idx : Nat) (s : List Char) : List Char :=
  replaceMatchesIdxF openPfx closeTag f s.length idx s

/-- `getTableCells`: every `<w:tr...>...</w:tr>` match of the document, each split into
its `<w:tc...>...</w:tc>` matches. -/
def getTableCells (documentXml : String) : List (List String) :=
  (scanMatches "<w:tr".toList "</w:tr>".toList documentXml.toList).map
    (fun rowXml =>
      (scanMatches "<w:tc".toList "</w:tc>".toList rowXml).map String.mk)

/-- `replaceCell`: replaces the `cellIndex`-th cell match inside the `rowIndex`-th row
match of the document, leaving everything else unchanged. -/
def replaceCell (documentXml : String) (rowIndex cellIndex : Nat)
    (newCellXml : String) : String :=
  String.mk (replaceMatchesIdx "<w:tr".toList "</w:tr>".toList
    (fun r rowM =>
      if r = rowIndex then
        replaceMatchesIdx "<w:tc".toList "</w:tc>".toList
          (fun ci cellM => if ci = cellIndex then newCellXml.toList else cellM) 0 rowM
      else rowM) 0 documentXml.toList)

/-! ## The template filler (`fillCTETemplate`)

The ZIP archive is modelled as a list of (part name, content) pairs; `zip.file(name)`
is lookup and `zip.file(name, content)` is update; `generateAsync` re-serializes the
archive, modelled as the archive itself. -/

abbrev Zip := List (String × String)

def zipFile (zip : Zip) (name : String) : Option String :=
  (zip.find? (fun p => p.1 == name)).map (fun p => p.2)

def zipSetFile (zip : Zip) (name content : String) : Zip :=
  if (zip.find? (fun p => p.1 == name)).isSome then
    zip.map (fun p => if p.1 == name then (name, content) else p)
  else zip ++ [(name, content)]

/-- One cell fill of the 18-row CTE table: either a text replacement or a checkbox
marking. -/
inductive CellUpdate where
  | setText (text : String)
  | mark (checkboxMap : List (String × String)) (selected : List String)
  deriving Repr, DecidableEq

structure FillAction where
  row : Nat
  col : Nat
  update : CellUpdate
  deriving Repr, DecidableEq

def applyCellUpdate (u : CellUpdate) (cellXml : String) : String :=
  match u with
  | .setText t => setCellText cellXml t
  | .mark m sel => markCheckboxes cellXml m sel

/-- The fixed sequence of cell fills performed by `fillCTETemplate`, in source order
(row/cell indices are 0-based; `day.content_standards || ""` is the identity on a
required string field and is transcribed as the field itself). -/
def cteFillActions (lessonPlan : LessonPlanInput) (day : DayPlan) : List FillAction :=
  let weekNum := lessonPlan.week
  let proceduresText := buildProceduresText day.schedule
  let differentiationText := buildDifferentiationText day.differentiation
  let overviewText := buildOverviewText day
  let materials := inferMaterials day
  let methods := inferMethods day
  let assessment := inferAssessment day
  let curriculumAreas := inferCurriculumAreas day
  let otherAreas := inferOtherAreas day curriculumAreas
  [ ⟨1, 0, .setText ("Week: " ++ weekNum)⟩,
    ⟨1, 1, .setText "Course Title: Media Foundations"⟩,
    ⟨2, 0, .setText ("Topic: " ++ day.topic)⟩,
    ⟨2, 1, .setText "Estimate duration in minutes: 90"⟩,
    ⟨5, 0, .setText day.content_standards⟩,
    ⟨7, 0, .setText overviewText⟩,
    ⟨7, 1, .mark MATERIALS_CHECKBOXES materials⟩,
    ⟨9, 0, .setText proceduresText⟩,
    ⟨11, 0, .mark METHODS_CHECKBOXES methods⟩,
    ⟨13, 0, .mark ASSESSMENT_CHECKBOXES assessment⟩,
    ⟨13, 1, .setText differentiationText⟩,
    ⟨15, 0, .mark CURRICULUM_CHECKBOXES curriculumAreas⟩,
    ⟨17, 0, .mark OTHER_AREAS_CHECKBOXES otherAreas⟩ ]

/-- `cells[r]?.[c]` on the row/cell structure computed from the original document. -/
def cellAt (cells : List (List String)) (r c : Nat) : Option String :=
  (cells[r]?).bind (fun row => row[c]?)

/-- One `if (cells[r]?.[c]) { documentXml = replaceCell(...) }` step: the fill is
silently skipped when the addressed cell does not exist. -/
def applyFillAction (cells : List (List String)) (xml : String) (a : FillAction) :
    String :=
  match cellAt cells a.row a.col with
  | some cell => replaceCell xml a.row a.col (applyCellUpdate a.update cell)
  | none => xml

/-- The whole document rewrite of `fillCTETemplate`: the cell structure is computed
once from the incoming XML, then the fills are applied in order to the evolving XML. -/
def fillDocumentXml (lessonPlan : LessonPlanInput) (day : DayPlan)
    (documentXml : String) : String :=
  let cells := getTableCells documentXml
  (cteFillActions lessonPlan day).foldl (applyFillAction cells) documentXml

/-- `fillCTETemplate`: throws for an out-of-range day index (with a message naming the
index and the actual day count), throws when the archive lacks `word/document.xml`,
and otherwise rewrites that part and returns the re-serialized archive. -/
def fillCTETemplate (templateZip : Zip) (lessonPlan : LessonPlanInput)
    (dayIndex : Nat) : Except String Zip :=
  match lessonPlan.days[dayIndex]? with
  | none =>
    .error ("Day index " ++ toString dayIndex ++ " out of range. Lesson plan has " ++
      toString lessonPlan.days.length ++ " days.")
  | some day =>
    match zipFile templateZip "word/document.xml" with
    | none => .error "Invalid DOCX file: missing word/document.xml"
    | some documentXml =>
      .ok (zipSetFile templateZip "word/document.xml"
        (fillDocumentXml lessonPlan day documentXml))

/-! ## docx component model (handout-components.ts, handout-styles.ts)

The `docx` node constructors are modelled structurally: a run keeps its text and the
style options the builders set; a paragraph is its runs (plus the spacing option); a
cell keeps width, shading fill, border set and child paragraphs.  Width constants are
the `convertInchesToTwip` values (inches × 1440, rounded). -/

def COLORS_NAVY_BLUE : String := "1A3C6E"
def COLORS_LIGHT_BLUE : String := "D6E3F8"
def COLORS_WHITE : String := "FFFFFF"
def COLORS_LIGHT_GRAY : String := "F5F5F5"
def COLORS_DARK_GRAY : String := "333333"

def FONT_SIZES_HEADING_1 : Nat := 32
def FONT_SIZES_BODY : Nat := 22
def FONT_SIZES_BODY_SMALL : Nat := 20

/-- `convertInchesToTwip(3.25)`. -/
def TEACHER_WIDTHS_VOCAB_CARD : Nat := 4680
/-- `convertInchesToTwip(3.55)`. -/
def TEACHER_WIDTHS_HALF_COL : Nat := 5112

structure DocRun where
  text : String
  size : Nat
  color : String
  font : String
  bold : Option Bool
  deriving Repr, DecidableEq

structure DocPara where
  spacingAfter : Option Nat
  runs : List DocRun
  deriving Repr, DecidableEq

inductive BorderSet where
  | none
  | thin
  deriving Repr, DecidableEq

structure DocCell where
  width : Option Nat
  shading : Option String
  borders : BorderSet
  paragraphs : List DocPara
  deriving Repr, DecidableEq

structure DocRow where
  cells : List DocCell
  deriving Repr, DecidableEq

structure DocTable where
  columnWidths : List Nat
  rows : List DocRow
  deriving Repr, DecidableEq

/-- The optional style argument of the text-run helpers. -/
structure TextOpts where
  bold : Option Bool
  size : Option Nat
  deriving Repr, DecidableEq

/-- `bodyText`: standard body styling. -/
def bodyText (text : String) (options : TextOpts) : DocRun :=
  { text := text, size := options.size.getD FONT_SIZES_BODY, color := COLORS_DARK_GRAY,
    font := "Arial", bold := options.bold }

/-- `headingText`: navy heading styling, bold by default. -/
def headingText (text : String) (options : TextOpts) : DocRun :=
  { text := text, size := options.size.getD FONT_SIZES_HEADING_1,
    color := COLORS_NAVY_BLUE, font := "Arial",
    bold := some (options.bold.getD true) }

/-- A populated vocabulary card cell of `cardGrid` (term heading + definition body). -/
def cardCell (cardWidth : Nat) (alternateColors : Bool) (color1 color2 : String)
    (rowIdx : Nat) (item : String × String) : DocCell :=
  let cardBg := if alternateColors && rowIdx % 2 == 1 then color2 else color1
  { width := some cardWidth, shading := some cardBg, borders := BorderSet.thin,
    paragraphs :=
      [ { spacingAfter := some 80,
          runs := [headingText item.1 { bold := none, size := some FONT_SIZES_BODY }] },
        { spacingAfter := none,
          runs := [bodyText item.2 { bold := none, size := some FONT_SIZES_BODY_SMALL }] } ] }

/-- The empty trailing placeholder cell pushed when `i + j` runs past the item count. -/
def placeholderCell (w : Nat) : DocCell :=
  { width := some w, shading := none, borders := BorderSet.none,
    paragraphs := [{ spacingAfter := none, runs := [] }] }

/-- The row-building loop of `cardGrid` (`for (i = 0; i < items.length; i += 2)`,
`rowIdx` is `i / 2`). -/
def cardGridRows (cardWidth : Nat) (alternateColors : Bool) (color1 color2 : String) :
    List (String × String) → Nat → List DocRow
  | [], _ => []
  | [a], rowIdx =>
    [⟨[cardCell cardWidth alternateColors color1 color2 rowIdx a,
       placeholderCell cardWidth]⟩]
  | a :: b :: rest, rowIdx =>
    ⟨[cardCell cardWidth alternateColors color1 color2 rowIdx a,
      cardCell cardWidth alternateColors color1 color2 rowIdx b]⟩ ::
      cardGridRows cardWidth alternateColors color1 color2 rest (rowIdx + 1)

structure CardGridOpts where
  cardWidth : Option Nat
  alternateColors : Option Bool
  color1 : Option String
  color2 : Option String
  deriving Repr, DecidableEq

/-- `cardGrid`: two-column term/definition card grid. -/
def cardGrid (items : List (String × String)) (options : CardGridOpts) : DocTable :=
  let cardWidth := options.cardWidth.getD TEACHER_WIDTHS_VOCAB_CARD
  let alternateColors := options.alternateColors.getD true
  let color1 := options.color1.getD COLORS_LIGHT_BLUE
  let color2 := options.color2.getD COLORS_LIGHT_GRAY
  let colWidth := cardWidth + 200
  { columnWidths := [colWidth, colWidth],
    rows := cardGridRows cardWidth alternateColors color1 color2 items 0 }

/-- A populated checklist cell of `checklistGrid` (`"[ ] <item>"`). -/
def checklistCell (colWidth : Nat) (rowIdx : Nat) (item : String) : DocCell :=
  { width := some colWidth,
    shading := some (if rowIdx % 2 == 1 then COLORS_LIGHT_GRAY else COLORS_WHITE),
    borders := BorderSet.thin,
    paragraphs :=
      [ { spacingAfter := none,
          runs := [bodyText ("[ ] " ++ item) { bold := none, size := none }] } ] }

/-- The row-building loop of `checklistGrid`. -/
def checklistGridRows (colWidth : Nat) : List String → Nat → List DocRow
  | [], _ => []
  | [a], rowIdx => [⟨[checklistCell colWidth rowIdx a, placeholderCell colWidth]⟩]
  | a :: b :: rest, rowIdx =>
    ⟨[checklistCell colWidth rowIdx a, checklistCell colWidth rowIdx b]⟩ ::
      checklistGridRows colWidth rest (rowIdx + 1)

structure ChecklistGridOpts where
  colWidth : Option Nat
  deriving Repr, DecidableEq

/-- `checklistGrid`: two-column checklist grid. -/
def checklistGrid (items : List String) (options : ChecklistGridOpts) : DocTable :=
  let colWidth := options.colWidth.getD TEACHER_WIDTHS_HALF_COL
  { columnWidths := [colWidth, colWidth],
    rows := checklistGridRows colWidth items 0 }

/-! ## Filenames (student-handout-generator.ts, teacher-handout-generator.ts) -/

/-- `replace(/\s+/g, "_")`: each maximal whitespace run becomes one underscore. -/
def collapseWsAux : Bool → List Char → List Char
  | _, [] => []
  | prevWs, c :: rest =>
    if isJsSpace c then
      if prevWs then collapseWsAux true rest
      else '_' :: collapseWsAux true rest
    else c :: collapseWsAux false rest

def collapseWs (cs : List Char) : List Char := collapseWsAux false cs

/-- The character class kept by `replace(/[^a-zA-Z0-9_-]/g, "")`. -/
def isSlugChar (c : Char) : Bool := c.isAlphanum || c == '_' || c == '-'

/-- The name slug of `getStudentHandoutFilename`:
`(handout.name || "Handout").replace(/\s+/g, "_").replace(/[^a-zA-Z0-9_-]/g, "").slice(0, 25)`. -/
def studentHandoutNameSlug (handout : StudentHandout) : String :=
  let base := if jsTruthy handout.name then handout.name else "Handout"
  String.mk (((collapseWs base.toList).filter isSlugChar).take 25)

def getStudentHandoutFilename (handout : StudentHandout) : String :=
  studentHandoutNameSlug handout ++ "_StudentHandout.docx"

/-- The unit slug of `getTeacherHandoutFilename` (same pipeline, bound 30). -/
def teacherUnitSlug (lessonPlan : LessonPlanInput) : String :=
  let base := if jsTruthy lessonPlan.unit then lessonPlan.unit else "Unit"
  String.mk (((collapseWs base.toList).filter isSlugChar).take 30)

/-! ## Orchestrator (generateAllDocuments, src/lib/document-generator/index.ts)

The two external collaborators are modelled at their call boundary:
* `loadTemplate` (Supabase/template storage): its outcome — resolved bytes or a thrown
  error — is the `loadResult` parameter;
* the `docx` `Packer` serialization inside the scratch generators: a produced buffer is
  modelled as a value recording which generator ran and on which arguments (the
  generators are pure tree builders with no failure path of their own, so the
  surrounding `try/catch` blocks never fire).
-/

/-- `parseInt(s)` in base 10: `none` is `NaN`. -/
def jsParseInt (s : String) : Option Int :=
  let t := s.toList.dropWhile isJsSpace
  let digitsVal : List Char → Option Nat := fun cs =>
    let ds := cs.takeWhile Char.isDigit
    if ds.isEmpty then none
    else some (ds.foldl (fun acc c => acc * 10 + (c.toNat - 48)) 0)
  match t with
  | '-' :: rest => (digitsVal rest).map (fun n => -(n : Int))
  | '+' :: rest => (digitsVal rest).map (fun n => (n : Int))
  | _ => (digitsVal t).map (fun n => (n : Int))

/-- `String(n)` for the possibly-NaN parse result. -/
def jsNumToString (w : Option Int) : String :=
  match w with
  | none => "NaN"
  | some i => toString i

/-- `.padStart(2, "0")`. -/
def padStart2 (s : String) : String :=
  if s.length ≥ 2 then s else String.mk (List.replicate (2 - s.length) '0') ++ s

def getTeacherHandoutFilename (lessonPlan : LessonPlanInput) (weekNumber : Option Int) :
    String :=
  "Week" ++ jsNumToString weekNumber ++ "_" ++ teacherUnitSlug lessonPlan ++
    "_TeacherHandout.docx"

/-- A produced document buffer (see the section comment for the modelling of the
`docx` serialization boundary). -/
inductive DocBuffer where
  | filledTemplate (zip : Zip)
  | lessonPlanScratch (day : DayPlan) (weekNumber : Option Int) (dayNumber : Nat)
      (unit : String)
  | teacherHandout (lessonPlan : LessonPlanInput) (weekNumber : Option Int)
  | studentHandout (handout : StudentHandout) (weekNumber : Option Int)
  deriving Repr, DecidableEq

inductive FileTag where
  | lesson_plan
  | teacher_handout
  | student_handout
  | presentation
  deriving Repr, DecidableEq

structure GeneratedFile where
  name : String
  content : DocBuffer
  mimeType : String
  type : FileTag
  deriving Repr, DecidableEq

/-- The OOXML wordprocessing MIME type the orchestrator stamps on every file. -/
def OOXML_MIME : String :=
  "application/vnd.openxmlformats-officedocument.wordprocessingml.document"

/-- `day.topic.replace(/[^a-zA-Z0-9]/g, "_")`. -/
def topicSlug (topic : String) : String :=
  String.mk (topic.toList.map (fun c => if c.isAlphanum then c else '_'))

def lessonPlanFileName (weekStr : String) (dayNum : Nat) (topic : String) : String :=
  "Week" ++ weekStr ++ "_Day" ++ toString dayNum ++ "_" ++ topicSlug topic ++ ".docx"

/-- The per-day file of the orchestrator loop: template fill when a template loaded,
falling back to the scratch generator when the fill throws (or no template loaded). -/
def dayFileOf (templateBuffer : Option Zip) (lessonPlan : LessonPlanInput)
    (weekNum : Option Int) (weekStr : String) (i : Nat) (day : DayPlan) :
    GeneratedFile :=
  let dayNum := i + 1
  let docBuffer : DocBuffer :=
    match templateBuffer with
    | some tb =>
      match fillCTETemplate tb lessonPlan i with
      | .ok filled => .filledTemplate filled
      | .error _ => .lessonPlanScratch day weekNum dayNum lessonPlan.unit
    | none => .lessonPlanScratch day weekNum dayNum lessonPlan.unit
  { name := lessonPlanFileName weekStr dayNum day.topic,
    content := docBuffer,
    mimeType := OOXML_MIME,
    type := FileTag.lesson_plan }

/-- The weekly teacher-handout file pushed by the orchestrator. -/
def teacherFileOf (lessonPlan : LessonPlanInput) (weekNum : Option Int) :
    GeneratedFile :=
  { name := getTeacherHandoutFilename lessonPlan weekNum,
    content := DocBuffer.teacherHandout lessonPlan weekNum,
    mimeType := OOXML_MIME,
    type := FileTag.teacher_handout }

/-- A per-entry student-handout file pushed by the orchestrator. -/
def studentFileOf (weekNum : Option Int) (handout : StudentHandout) : GeneratedFile :=
  { name := getStudentHandoutFilename handout,
    content := DocBuffer.studentHandout handout weekNum,
    mimeType := OOXML_MIME,
    type := FileTag.student_handout }

/-- `generateAllDocuments`: one lesson-plan file per day, then the weekly teacher
handout, then one student-handout file per `student_handouts` entry. -/
def generateAllDocuments (loadResult : Except String Zip)
    (lessonPlan : LessonPlanInput) : List GeneratedFile :=
  let weekNum := jsParseInt lessonPlan.week
  let weekStr := padStart2 (jsNumToString weekNum)
  let templateBuffer : Option Zip :=
    match loadResult with
    | .ok b => some b
    | .error _ => none
  let dayFiles := lessonPlan.days.enum.map (fun p =>
    dayFileOf templateBuffer lessonPlan weekNum weekStr p.1 p.2)
  let teacherFiles := [teacherFileOf lessonPlan weekNum]
  let studentFiles := (lessonPlan.student_handouts.getD []).map
    (studentFileOf weekNum)
  dayFiles ++ teacherFiles ++ studentFiles

/-! ## Auxiliary definitions for the statements below -/

/-- Spec-side rendering of a kept (non-empty-name) schedule activity, for comparison
with `buildProceduresText`. -/
def renderScheduleLine (it : ScheduleItem) : String :=
  if jsTruthy it.time then
    (if jsTruthy it.description then
      it.time ++ " - " ++ it.name ++ ": " ++ it.description
     else it.time ++ " - " ++ it.name)
  else
    (if jsTruthy it.description then it.name ++ ": " ++ it.description else it.name)

/-- No pattern of the table matches the text. -/
def noPatternMatches (table : List (List String × String)) (text : String) : Bool :=
  table.all (fun p => !(testAny p.1 text))

/-- A minimal day plan with the given topic and otherwise empty content. -/
def mkSampleDay (topic : String) : DayPlan :=
  { day_label := none, topic := topic, objectives := [], day_materials := [],
    schedule := [], vocabulary := [], differentiation := ⟨"", "", ""⟩,
    teacher_notes := "", content_standards := "", overview := none,
    materials := none, methods := none, assessment := none }

/-- A minimal one-day lesson plan. -/
def sampleLessonPlan : LessonPlanInput :=
  { week := "3", unit := "Media", week_focus := "", week_overview := "",
    week_objectives := [], week_materials := [], formative_assessment := "",
    summative_assessment := "", weekly_deliverable := "",
    days := [mkSampleDay "Intro"], vocabulary_summary := none, teacher_notes := none,
    standards_alignment := "", student_handouts := none, skip_presentations := none }

/-- A student handout whose name contains a hyphen. -/
def hyphenHandout : StudentHandout :=
  { name := "a-b", title := "", subtitle := "", instructions := "", sections := [],
    vocabulary := none, questions := none, tips := none }

/-- The student handout named as in the spec's filename example. -/
def cameraHandout : StudentHandout :=
  { name := "Camera Parts & Lighting Guide!!", title := "", subtitle := "",
    instructions := "", sections := [], vocabulary := none, questions := none,
    tips := none }

/-! ## A segment model of checkbox cells, for the `markCheckboxes` characterization

A checkbox cell, as `markCheckboxes` sees it, interleaves inert text with underscore
placeholders: a run of underscores, a whitespace run, and a label occurrence.  The
characterization below is universally quantified over such cells and over every
checkbox map whose labels satisfy the decidable `MapOK` conditions (all five maps of
the template filler do). -/

/-- One segment of a checkbox cell: inert text containing no underscore, or the
placeholder of the map entry `(key, label)` — `pad` underscores, then a whitespace
run, then the label as it is spelled in the cell (`btext`, case-insensitively equal
to `label`). -/
inductive CellSeg where
  | filler (t : List Char)
  | box (pad : Nat) (ws : List Char) (key : String) (label : String)
      (btext : List Char)
  deriving Repr, DecidableEq

def renderSeg : CellSeg → List Char
  | .filler t => t
  | .box pad ws _ _ btext => List.replicate pad '_' ++ ws ++ btext

def renderCell (segs : List CellSeg) : List Char := (segs.map renderSeg).flatten

/-- The rewriting `markCheckboxes` is claimed to perform on one segment: a placeholder
whose key is selected becomes `X`, one space, and the label in the map's casing;
every other segment is untouched. -/
def markSeg (selected : List String) : CellSeg → CellSeg
  | .filler t => .filler t
  | .box pad ws k l btext =>
    if selected.contains k then CellSeg.filler ('X' :: ' ' :: l.toList)
    else .box pad ws k l btext

/-- The rewriting one `replace` pass for a label performs on one segment:
placeholders of that label are rewritten, everything else is untouched. -/
def markSegLabel (label : String) : CellSeg → CellSeg
  | .filler t => .filler t
  | .box pad ws k l btext =>
    if l = label then CellSeg.filler ('X' :: ' ' :: label.toList)
    else .box pad ws k l btext

/-- The effect of the single map-loop iteration for entry `kv` on one segment:
placeholders of that entry's label are rewritten when its key is selected. -/
def markSegEntry (selected : List String) (kv : String × String)
    (seg : CellSeg) : CellSeg :=
  if selected.contains kv.1 = true then markSegLabel kv.2 seg else seg

/-- The label starts with a character that is (case-insensitively) neither whitespace
nor an underscore — so a placeholder match can neither begin inside the label nor
absorb it as trailing whitespace. -/
def labelHeadOK (l : List Char) : Bool :=
  match l with
  | [] => false
  | c :: _ => !(isJsSpace c.toLower) && !(c.toLower == '_')

/-- Well-formedness of a checkbox map for placeholder marking, satisfied by all five
maps of the template filler: every label starts with a non-space non-underscore
character and contains no underscore; distinct labels are never case-insensitive
prefixes of one another; and a label determines its key. -/
def MapOK (checkboxMap : List (String × String)) : Prop :=
  (∀ kv ∈ checkboxMap, labelHeadOK kv.2.toList = true ∧ '_' ∉ kv.2.toList) ∧
  (∀ kv1 ∈ checkboxMap, ∀ kv2 ∈ checkboxMap, kv1.2 ≠ kv2.2 →
    prefixCI kv1.2.toList kv2.2.toList = false) ∧
  (∀ kv1 ∈ checkboxMap, ∀ kv2 ∈ checkboxMap, kv1.2 = kv2.2 → kv1.1 = kv2.1)

/-- Well-formedness of a segment with respect to a map: fillers are underscore-free;
a placeholder has at least one underscore, only whitespace in its whitespace run, an
entry of the map, and a label occurrence that is case-insensitively that entry's
label, contains no underscore, and does not start with whitespace. -/
def SegOK (checkboxMap : List (String × String)) : CellSeg → Prop
  | .filler t => '_' ∉ t
  | .box pad ws k l btext =>
    1 ≤ pad ∧ (∀ c ∈ ws, isJsSpace c = true) ∧ (k, l) ∈ checkboxMap ∧
    btext.map Char.toLower = l.toList.map Char.toLower ∧
    '_' ∉ btext ∧ (∀ c, btext.head? = some c → isJsSpace c = false)

instance decMapOK (m : List (String × String)) : Decidable (MapOK m) := by
  unfold MapOK
  exact inferInstance

instance decSegOK (m : List (String × String)) : (s : CellSeg) → Decidable (SegOK m s)
  | .filler t => by unfold SegOK; exact inferInstance
  | .box pad ws k l btext => by unfold SegOK; exact inferInstance

/-! ## Shared helper lemmas -/

theorem append_eq_empty_iff (a b : String) : (a ++ b) = "" ↔ (a = "" ∧ b = "") := by
  cases a with
  | mk da =>
    cases b with
    | mk db =>
      constructor
      · intro h
        have hd : da ++ db = [] := congrArg String.data h
        have := List.append_eq_nil.mp hd
        exact ⟨congrArg String.mk this.1, congrArg String.mk this.2⟩
      · rintro ⟨h1, h2⟩
        rw [h1, h2]
        rfl

theorem jsTruthy_append (a b : String) :
    jsTruthy (a ++ b) = (jsTruthy a || jsTruthy b) := by
  by_cases ha : a = "" <;> by_cases hb : b = "" <;>
    simp [jsTruthy, ha, hb, append_eq_empty_iff]

theorem proceduresLine_of_name (it : ScheduleItem) :
    (jsTruthy it.name = true →
      proceduresLine it = renderScheduleLine it ∧
      jsTruthy (renderScheduleLine it) = true) ∧
    (jsTruthy it.name = false → proceduresLine it = "") := by
  have hdash : jsTruthy " - " = true := rfl
  constructor
  · intro hn
    cases ht : jsTruthy it.time <;> cases hd : jsTruthy it.description <;>
      simp [proceduresLine, renderScheduleLine, ht, hd, hn, jsTruthy_append, hdash]
  · intro hn
    simp [proceduresLine, hn]

theorem mem_ite_append {c : Prop} [Decidable c] (l : List String) (k x : String) :
    (x ∈ (if c then l ++ [k] else l)) ↔ (x ∈ l ∨ (c ∧ x = k)) := by
  by_cases h : c
  · simp [h, List.mem_append]
  · simp [h]

theorem foldl_table_mem_init (table : List (List String × String)) (text : String) :
    ∀ (acc : List String) (x : String), x ∈ acc →
      x ∈ table.foldl (fun acc p => if testAny p.1 text then acc ++ [p.2] else acc)
        acc := by
  induction table with
  | nil => intro acc x hx; simpa using hx
  | cons p rest ih =>
    intro acc x hx
    simp only [List.foldl_cons]
    apply ih
    split
    · exact List.mem_append_left _ hx
    · exact hx

theorem mem_applyPatternTable (table : List (List String × String)) (text : String)
    (alts : List String) (key : String) (hmem : (alts, key) ∈ table)
    (ht : testAny alts text = true) : key ∈ applyPatternTable table text := by
  have general : ∀ (t : List (List String × String)) (acc : List String),
      (alts, key) ∈ t →
      key ∈ t.foldl (fun acc p => if testAny p.1 text then acc ++ [p.2] else acc)
        acc := by
    intro t
    induction t with
    | nil => intro acc h; simp at h
    | cons p rest ih =>
      intro acc h
      rcases List.mem_cons.mp h with heq | hrest
      · subst heq
        simp only [List.foldl_cons, ht, if_pos]
        exact foldl_table_mem_init rest text _ key (List.mem_append_right _ (by simp))
      · exact ih _ hrest
  exact general table [] hmem

theorem applyPatternTable_eq_nil (table : List (List String × String)) (text : String)
    (h : noPatternMatches table text = true) : applyPatternTable table text = [] := by
  unfold applyPatternTable
  induction table with
  | nil => rfl
  | cons p rest ih =>
    simp only [noPatternMatches, List.all_cons, Bool.and_eq_true] at h
    simp only [List.foldl_cons]
    have hp : testAny p.1 text = false := by
      cases htest : testAny p.1 text
      · rfl
      · rw [htest] at h; simp at h
    rw [hp]
    simp only [Bool.false_eq_true, if_false]
    exact ih (by simp [noPatternMatches, h.2])

theorem filter_map_eq_self {α β : Type} (f : α → β) (p : β → Bool) (l : List α)
    (h : ∀ a, p (f a) = true) : (l.map f).filter p = l.map f := by
  induction l with
  | nil => rfl
  | cons a rest ih => simp [h, ih]

theorem filter_map_eq_nil {α β : Type} (f : α → β) (p : β → Bool) (l : List α)
    (h : ∀ a, p (f a) = false) : (l.map f).filter p = [] := by
  induction l with
  | nil => rfl
  | cons a rest ih => simp [h, ih]

theorem cardGridRows_cells_two (w : Nat) (a : Bool) (c1 c2 : String) :
    ∀ (items : List (String × String)) (r : Nat) (row : DocRow),
      row ∈ cardGridRows w a c1 c2 items r → row.cells.length = 2
  | [], _, _, h => by simp [cardGridRows] at h
  | [x], r, row, h => by
    simp only [cardGridRows, List.mem_singleton] at h
    subst h
    rfl
  | x :: y :: rest, r, row, h => by
    rcases List.mem_cons.mp h with heq | hmem
    · subst heq; rfl
    · exact cardGridRows_cells_two w a c1 c2 rest (r + 1) row hmem

theorem cardGridRows_length (w : Nat) (a : Bool) (c1 c2 : String) :
    ∀ (items : List (String × String)) (r : Nat),
      (cardGridRows w a c1 c2 items r).length = (items.length + 1) / 2
  | [], _ => by simp [cardGridRows]
  | [x], _ => by simp [cardGridRows]
  | x :: y :: rest, r => by
    have ih := cardGridRows_length w a c1 c2 rest (r + 1)
    simp only [cardGridRows, List.length_cons, ih]
    omega

theorem cardGridRows_getElem (w : Nat) (a : Bool) (c1 c2 : String) :
    ∀ (items : List (String × String)) (r k : Nat),
      (cardGridRows w a c1 c2 items r)[k]? =
        match items[2 * k]? with
        | none => none
        | some x =>
          some ⟨[cardCell w a c1 c2 (r + k) x,
                 match items[2 * k + 1]? with
                 | some y => cardCell w a c1 c2 (r + k) y
                 | none => placeholderCell w]⟩
  | [], r, k => by simp [cardGridRows]
  | [x], r, k => by
    cases k with
    | zero => simp [cardGridRows]
    | succ k =>
      have h2 : (2 : Nat) * (k + 1) = 2 * k + 1 + 1 := by omega
      simp [cardGridRows, h2]
  | x :: y :: rest, r, k => by
    cases k with
    | zero => simp [cardGridRows]
    | succ k =>
      have ih := cardGridRows_getElem w a c1 c2 rest (r + 1) k
      have h2 : (2 : Nat) * (k + 1) = 2 * k + 1 + 1 := by omega
      have h3 : (2 : Nat) * (k + 1) + 1 = 2 * k + 1 + 1 + 1 := by omega
      simp only [cardGridRows, List.getElem?_cons_succ, ih, h2, h3]
      have hradd : r + 1 + k = r + (k + 1) := by omega
      rw [hradd]

theorem checklistGridRows_cells_two (w : Nat) :
    ∀ (items : List String) (r : Nat) (row : DocRow),
      row ∈ checklistGridRows w items r → row.cells.length = 2
  | [], _, _, h => by simp [checklistGridRows] at h
  | [x], r, row, h => by
    simp only [checklistGridRows, List.mem_singleton] at h
    subst h
    rfl
  | x :: y :: rest, r, row, h => by
    rcases List.mem_cons.mp h with heq | hmem
    · subst heq; rfl
    · exact checklistGridRows_cells_two w rest (r + 1) row hmem

theorem checklistGridRows_length (w : Nat) :
    ∀ (items : List String) (r : Nat),
      (checklistGridRows w items r).length = (items.length + 1) / 2
  | [], _ => by simp [checklistGridRows]
  | [x], _ => by simp [checklistGridRows]
  | x :: y :: rest, r => by
    have ih := checklistGridRows_length w rest (r + 1)
    simp only [checklistGridRows, List.length_cons, ih]
    omega

theorem checklistGridRows_getElem (w : Nat) :
    ∀ (items : List String) (r k : Nat),
      (checklistGridRows w items r)[k]? =
        match items[2 * k]? with
        | none => none
        | some x =>
          some ⟨[checklistCell w (r + k) x,
                 match items[2 * k + 1]? with
                 | some y => checklistCell w (r + k) y
                 | none => placeholderCell w]⟩
  | [], r, k => by simp [checklistGridRows]
  | [x], r, k => by
    cases k with
    | zero => simp [checklistGridRows]
    | succ k =>
      have h2 : (2 : Nat) * (k + 1) = 2 * k + 1 + 1 := by omega
      simp [checklistGridRows, h2]
  | x :: y :: rest, r, k => by
    cases k with
    | zero => simp [checklistGridRows]
    | succ k =>
      have ih := checklistGridRows_getElem w rest (r + 1) k
      have h2 : (2 : Nat) * (k + 1) = 2 * k + 1 + 1 := by omega
      have h3 : (2 : Nat) * (k + 1) + 1 = 2 * k + 1 + 1 + 1 := by omega
      simp only [checklistGridRows, List.getElem?_cons_succ, ih, h2, h3]
      have hradd : r + 1 + k = r + (k + 1) := by omega
      rw [hradd]

theorem markCheckboxes_id (text : String) (checkboxMap : List (String × String))
    (selected : List String) (h : ∀ kv ∈ checkboxMap, kv.1 ∉ selected) :
    markCheckboxes text checkboxMap selected = text := by
  unfold markCheckboxes
  induction checkboxMap generalizing text with
  | nil => rfl
  | cons kv rest ih =>
    simp only [List.foldl_cons]
    have hc : selected.contains kv.1 = false := by
      have := h kv (List.mem_cons_self kv rest)
      simpa using this
    rw [hc]
    simp only [Bool.false_eq_true, if_false]
    exact ih text (fun kv hkv => h kv (List.mem_cons_of_mem _ hkv))

/-! ## Claim theorems -/

/-- Claim C2: `fillCTETemplate` throws if and only if the archive lacks the
`word/document.xml` part or the day index is at least the lesson plan's day count; in
the out-of-range case the error message names both the requested index and the actual
day count; for every in-range index on an archive containing the main document part it
returns filled bytes without throwing (mismatched table rows are silently skipped by
the cell-existence guards, never raising an error). -/
theorem c2_fillCTETemplate_error_conditions (z : Zip) (lp : LessonPlanInput)
    (i : Nat) :
    ((∃ out, fillCTETemplate z lp i = Except.ok out) ↔
      (i < lp.days.length ∧ ∃ xml, zipFile z "word/document.xml" = some xml)) ∧
    (lp.days.length ≤ i →
      fillCTETemplate z lp i = Except.error ("Day index " ++ toString i ++
        " out of range. Lesson plan has " ++ toString lp.days.length ++ " days.")) ∧
    (i < lp.days.length → zipFile z "word/document.xml" = none →
      fillCTETemplate z lp i =
        Except.error "Invalid DOCX file: missing word/document.xml") := by
  refine ⟨?_, ?_, ?_⟩
  · unfold fillCTETemplate
    cases hd : lp.days[i]? with
    | none =>
      have hlen : lp.days.length ≤ i := by
        simpa using List.getElem?_eq_none_iff.mp hd
      simp [hlen]
    | some day =>
      have hlt : i < lp.days.length := by
        by_contra hcon
        rw [List.getElem?_eq_none_iff.mpr (by omega)] at hd
        exact Option.noConfusion hd
      cases hz : zipFile z "word/document.xml" with
      | none => simp [hlt, hz]
      | some xml => simp [hlt, hz]
  · intro h
    have hd : lp.days[i]? = none := List.getElem?_eq_none_iff.mpr h
    unfold fillCTETemplate
    rw [hd]
  · intro hlt hz
    have hd : lp.days[i]? = some (lp.days[i]) := List.getElem?_eq_getElem hlt
    unfold fillCTETemplate
    rw [hd, hz]

theorem c2_witness :
    fillCTETemplate [] sampleLessonPlan 5 = Except.error ("Day index " ++ toString 5 ++
      " out of range. Lesson plan has " ++ toString sampleLessonPlan.days.length ++
      " days.") :=
  (c2_fillCTETemplate_error_conditions [] sampleLessonPlan 5).2.1 (by decide)

/-- Claim C4 counterexample: an activity with a non-empty time but an empty name is
silently dropped by `buildProceduresText` (the result is empty), although the claim
says an activity is dropped only when its time and name are both empty and would here
render as a `"<time> - <name>: <description>"` line. -/
theorem c4_counterexample :
    buildProceduresText [⟨"9:00", "", "warm up"⟩] = "" ∧
    buildProceduresText [⟨"9:00", "", "warm up"⟩] ≠ "9:00 - : warm up" := by
  refine ⟨rfl, ?_⟩
  intro h
  exact absurd (rfl.symm.trans h) (by decide)

/-- Claim C4 as amended: `buildProceduresText` drops an activity exactly when its
`name` is empty (regardless of `time`), renders each kept activity as
`"<time> - <name>: <description>"` only when time, name and description are all
non-empty — omitting the `" - "` part when the time is empty and the
`": <description>"` part when the description is empty — and joins the lines with
newlines. -/
theorem c4_buildProceduresText_amended (schedule : List ScheduleItem) :
    buildProceduresText schedule =
      joinWith "\n"
        ((schedule.filter (fun it => jsTruthy it.name)).map renderScheduleLine) := by
  have hempty : jsTruthy "" = false := rfl
  have core : ∀ (l : List ScheduleItem),
      (l.map proceduresLine).filter jsTruthy =
        (l.filter (fun it => jsTruthy it.name)).map renderScheduleLine := by
    intro l
    induction l with
    | nil => rfl
    | cons it rest ih =>
      cases hn : jsTruthy it.name with
      | true =>
        obtain ⟨heq, htr⟩ := (proceduresLine_of_name it).1 hn
        simp only [List.map_cons, List.filter_cons, heq, htr, hn, if_pos, ih]
      | false =>
        have heq := (proceduresLine_of_name it).2 hn
        simp [List.map_cons, List.filter_cons, heq, hn, hempty, ih]
  cases schedule with
  | nil => rfl
  | cons it rest =>
    have h1 : buildProceduresText (it :: rest) =
        joinWith "\n" (((it :: rest).map proceduresLine).filter jsTruthy) := rfl
    rw [h1, core]

/-- Claim C5: a day whose combined lowercased text contains the substrings `tripod`
and `lighting` is classified with `other_equipment` by `inferMaterials`, and a day
whose combined text matches none of the configured keyword patterns yields the empty
selection. -/
theorem c5_inferMaterials_keywords (d1 d2 : DayPlan)
    (h1 : containsSub "tripod" (materialsAllText d1) = true)
    (h2 : containsSub "lighting" (materialsAllText d1) = true)
    (h3 : noPatternMatches MATERIALS_PATTERNS (materialsAllText d2) = true) :
    "other_equipment" ∈ inferMaterials d1 ∧ inferMaterials d2 = [] := by
  constructor
  · apply mem_applyPatternTable MATERIALS_PATTERNS (materialsAllText d1)
      ["camera", "tripod", "lighting", "light", "microphone", "mic", "equipment",
        "gear"]
      "other_equipment"
    · simp [MATERIALS_PATTERNS]
    · simp only [testAny, List.any_eq_true]
      exact ⟨"tripod", by simp, h1⟩
  · exact applyPatternTable_eq_nil _ _ h3

theorem c5_witness :
    "other_equipment" ∈ inferMaterials (mkSampleDay "Tripod Lighting setup") ∧
    inferMaterials (mkSampleDay "zzz qqq") = [] :=
  c5_inferMaterials_keywords (mkSampleDay "Tripod Lighting setup")
    (mkSampleDay "zzz qqq") (by rfl) (by rfl) (by rfl)

/-- Claim C9: the template filler writes the fixed strings
`"Course Title: Media Foundations"` into the course-title cell (row 1, cell 1) and
`"Estimate duration in minutes: 90"` into the duration cell (row 2, cell 1) for every
lesson plan and day — neither value is taken from the input — and `fillCTETemplate`
ignores `lessonPlan.unit` entirely. -/
theorem c9_fixed_course_title_duration (lp : LessonPlanInput) (day : DayPlan)
    (u : String) (z : Zip) (i : Nat) :
    (cteFillActions lp day)[1]? =
      some ⟨1, 1, CellUpdate.setText "Course Title: Media Foundations"⟩ ∧
    (cteFillActions lp day)[3]? =
      some ⟨2, 1, CellUpdate.setText "Estimate duration in minutes: 90"⟩ ∧
    fillCTETemplate z { lp with unit := u } i = fillCTETemplate z lp i :=
  ⟨rfl, rfl, rfl⟩

/-- Claim C10: `inferOtherAreas` always returns `varied_learning` (the required
differentiation object makes its truthiness test constantly true), and returns
`integrated_academics` exactly when the curriculum-areas list passed to it is
non-empty. -/
theorem c10_inferOtherAreas_defaults (day : DayPlan) (cur : List String) :
    "varied_learning" ∈ inferOtherAreas day cur ∧
    ("integrated_academics" ∈ inferOtherAreas day cur ↔ cur ≠ []) := by
  constructor
  · simp only [inferOtherAreas, mem_ite_append]
    simp [isTruthyObject]
  · simp only [inferOtherAreas, mem_ite_append]
    simp [isTruthyObject]
    exact List.length_pos


theorem prefixCI_self_append (a t : List Char) : prefixCI a (a ++ t) = true := by
  induction a with
  | nil => rfl
  | cons c rest ih => simp [prefixCI, ih]

theorem prefixCI_congr_right (a : List Char) :
    ∀ (b b' t : List Char), b.map Char.toLower = b'.map Char.toLower →
      prefixCI a (b ++ t) = prefixCI a (b' ++ t) := by
  induction a with
  | nil => intro b b' t _; rfl
  | cons c rest ih =>
    intro b b' t h
    cases b with
    | nil =>
      cases b' with
      | nil => rfl
      | cons d w => simp at h
    | cons d w =>
      cases b' with
      | nil => simp at h
      | cons d2 w2 =>
        simp only [List.map_cons, List.cons.injEq] at h
        simp only [List.cons_append, prefixCI, h.1, List.append_eq]
        rw [ih w w2 t h.2]

theorem prefixCI_append_left_of_le (a : List Char) :
    ∀ (b t : List Char), a.length ≤ b.length →
      prefixCI a (b ++ t) = prefixCI a b := by
  induction a with
  | nil => intro b t _; rfl
  | cons c rest ih =>
    intro b t hle
    cases b with
    | nil => simp at hle
    | cons d w =>
      simp only [List.cons_append, prefixCI, List.append_eq]
      rw [ih w t (by simpa using hle)]

theorem prefixCI_rev_of_le (b : List Char) :
    ∀ (a t : List Char), prefixCI a (b ++ t) = true → b.length ≤ a.length →
      prefixCI b a = true := by
  induction b with
  | nil => intro a t _ _; rfl
  | cons d w ih =>
    intro a t hpre hle
    cases a with
    | nil => simp at hle
    | cons c r =>
      simp only [List.cons_append, prefixCI, Bool.and_eq_true, beq_iff_eq] at hpre ⊢
      exact ⟨hpre.1.symm, ih r t hpre.2 (by simpa using hle)⟩

theorem toLower_of_jsSpace (c : Char) (h : isJsSpace c = true) : c.toLower = c := by
  simp only [isJsSpace, Bool.or_eq_true, beq_iff_eq] at h
  rcases h with ((((h | h) | h) | h) | h) | h <;> subst h <;> decide

theorem jsSpace_ne_underscore (c : Char) (h : isJsSpace c = true) :
    (c == '_') = false := by
  simp only [isJsSpace, Bool.or_eq_true, beq_iff_eq] at h
  rcases h with ((((h | h) | h) | h) | h) | h <;> subst h <;> decide

theorem jsSpace_underscore_false : isJsSpace '_' = false := by decide

theorem prefixCI_underscore_head (l : List Char) (hl : labelHeadOK l = true)
    (r : List Char) : prefixCI l ('_' :: r) = false := by
  cases l with
  | nil => simp [labelHeadOK] at hl
  | cons c w =>
    simp only [labelHeadOK, Bool.and_eq_true, Bool.not_eq_true'] at hl
    simp only [prefixCI, Bool.and_eq_false_iff]
    left
    have : ('_' : Char).toLower = '_' := by decide
    rw [this]
    exact hl.2

theorem prefixCI_ws_head (l : List Char) (hl : labelHeadOK l = true)
    (d : Char) (hd : isJsSpace d = true) (r : List Char) :
    prefixCI l (d :: r) = false := by
  cases l with
  | nil => simp [labelHeadOK] at hl
  | cons c w =>
    simp only [labelHeadOK, Bool.and_eq_true, Bool.not_eq_true'] at hl
    simp only [prefixCI, Bool.and_eq_false_iff]
    left
    rw [toLower_of_jsSpace d hd]
    cases hcd : (c.toLower == d)
    · rfl
    · rw [beq_iff_eq] at hcd
      rw [← hcd] at hd
      rw [hd] at hl
      exact absurd hl.1 (by simp)

theorem countLeading_underscores (p : Nat) (r : List Char)
    (hr : ∀ c, r.head? = some c → (c == '_') = false) :
    countLeadingP (fun c => c == '_') (List.replicate p '_' ++ r) = p := by
  induction p with
  | zero =>
    simp only [List.replicate, List.nil_append]
    cases r with
    | nil => rfl
    | cons c w =>
      simp only [countLeadingP, hr c rfl]
      rfl
  | succ p ih =>
    simp only [List.replicate, List.cons_append, countLeadingP]
    rw [if_pos (by decide)]
    simp only [List.append_eq]
    rw [ih]

theorem countLeading_ws (ws : List Char) (r : List Char)
    (hws : ∀ c ∈ ws, isJsSpace c = true)
    (hr : ∀ c, r.head? = some c → isJsSpace c = false) :
    countLeadingP isJsSpace (ws ++ r) = ws.length := by
  induction ws with
  | nil =>
    simp only [List.nil_append, List.length_nil]
    cases r with
    | nil => rfl
    | cons c w =>
      simp only [countLeadingP, hr c rfl]
      rfl
  | cons c w ih =>
    simp only [List.cons_append, countLeadingP, hws c (by simp), if_pos,
      List.append_eq]
    rw [ih (fun d hd => hws d (by simp [hd]))]
    rfl

theorem tryWs_eq_some (l rest : List Char) (m : Nat)
    (h : prefixCI l (rest.drop m) = true) : tryWs l rest m = some (m + l.length) := by
  cases m with
  | zero =>
    simp only [List.drop_zero] at h
    simp [tryWs, h]
  | succ m => simp [tryWs, h]

theorem tryWs_eq_none (l rest : List Char) (m : Nat)
    (h : ∀ w, w ≤ m → prefixCI l (rest.drop w) = false) : tryWs l rest m = none := by
  induction m with
  | zero =>
    have := h 0 (by omega)
    simp only [List.drop_zero] at this
    simp [tryWs, this]
  | succ m ih =>
    simp only [tryWs, h (m + 1) (le_refl _)]
    simp only [Bool.false_eq_true, if_false]
    exact ih (fun w hw => h w (by omega))

theorem placeholderMatchLen_nonunderscore (l : List Char) (c : Char) (r : List Char)
    (hc : (c == '_') = false) : placeholderMatchLen l (c :: r) = none := by
  unfold placeholderMatchLen
  have h0 : countLeadingP (fun c => c == '_') (c :: r) = 0 := by
    simp [countLeadingP, hc]
  rw [h0]
  rfl

theorem box_tail_head_not_underscore (ws btext follow : List Char)
    (hws : ∀ c ∈ ws, isJsSpace c = true) (hbu : '_' ∉ btext) (hbne : btext ≠ []) :
    ∀ c, (ws ++ (btext ++ follow)).head? = some c → (c == '_') = false := by
  intro c hc
  cases ws with
  | cons d w =>
    simp only [List.cons_append, List.head?_cons, Option.some.injEq] at hc
    subst hc
    exact jsSpace_ne_underscore d (hws d (by simp))
  | nil =>
    cases btext with
    | nil => exact absurd rfl hbne
    | cons b bs =>
      simp only [List.nil_append, List.cons_append, List.head?_cons,
        Option.some.injEq] at hc
      subst hc
      have hb : b ≠ '_' := by
        intro h
        subst h
        exact hbu (by simp)
      simpa using hb

theorem box_tail_head_not_ws (btext follow : List Char)
    (hbh : ∀ c, btext.head? = some c → isJsSpace c = false) (hbne : btext ≠ []) :
    ∀ c, (btext ++ follow).head? = some c → isJsSpace c = false := by
  intro c hc
  cases btext with
  | nil => exact absurd rfl hbne
  | cons b bs =>
    simp only [List.cons_append, List.head?_cons, Option.some.injEq] at hc
    subst hc
    exact hbh b rfl

theorem drop_replicate_append (p n : Nat) (hn : n ≤ p) (x : List Char) :
    (List.replicate p '_' ++ x).drop n = List.replicate (p - n) '_' ++ x := by
  rw [List.drop_append_of_le_length (by simp [hn]), List.drop_replicate]

theorem placeholderMatchLen_box_match (l : List Char) (pad : Nat) (hpad : 1 ≤ pad)
    (ws btext follow : List Char)
    (hws : ∀ c ∈ ws, isJsSpace c = true)
    (hbt : prefixCI l (btext ++ follow) = true)
    (hbh : ∀ c, btext.head? = some c → isJsSpace c = false)
    (hbu : '_' ∉ btext) (hbne : btext ≠ []) :
    placeholderMatchLen l (List.replicate pad '_' ++ (ws ++ (btext ++ follow))) =
      some (pad + (ws.length + l.length)) := by
  have hcount := countLeading_underscores pad (ws ++ (btext ++ follow))
    (box_tail_head_not_underscore ws btext follow hws hbu hbne)
  unfold placeholderMatchLen
  rw [hcount]
  cases pad with
  | zero => omega
  | succ u =>
    have hdrop : (List.replicate (u + 1) '_' ++ (ws ++ (btext ++ follow))).drop
        (u + 1) = ws ++ (btext ++ follow) := by
      rw [drop_replicate_append (u + 1) (u + 1) (le_refl _)]
      simp
    have hcws : countLeadingP isJsSpace (ws ++ (btext ++ follow)) = ws.length :=
      countLeading_ws ws (btext ++ follow) hws
        (box_tail_head_not_ws btext follow hbh hbne)
    have htw : tryWs l (ws ++ (btext ++ follow)) ws.length =
        some (ws.length + l.length) := by
      apply tryWs_eq_some
      rw [List.drop_left]
      exact hbt
    simp only [tryUnderscores, hdrop, hcws, htw]

theorem placeholderMatchLen_box_nomatch (l : List Char) (hl : labelHeadOK l = true)
    (pad : Nat) (ws btext follow : List Char)
    (hws : ∀ c ∈ ws, isJsSpace c = true)
    (hbt : prefixCI l (btext ++ follow) = false)
    (hbh : ∀ c, btext.head? = some c → isJsSpace c = false)
    (hbu : '_' ∉ btext) (hbne : btext ≠ []) :
    placeholderMatchLen l (List.replicate pad '_' ++ (ws ++ (btext ++ follow))) =
      none := by
  have hcount := countLeading_underscores pad (ws ++ (btext ++ follow))
    (box_tail_head_not_underscore ws btext follow hws hbu hbne)
  unfold placeholderMatchLen
  rw [hcount]
  have haux : ∀ u, u ≤ pad →
      tryUnderscores l (List.replicate pad '_' ++ (ws ++ (btext ++ follow))) u =
        none := by
    intro u
    induction u with
    | zero => intro _; rfl
    | succ u ih =>
      intro hu
      by_cases hlt : u + 1 < pad
      · have hdropu : (List.replicate pad '_' ++ (ws ++ (btext ++ follow))).drop
            (u + 1) = '_' :: (List.replicate (pad - (u + 1) - 1) '_' ++
              (ws ++ (btext ++ follow))) := by
          rw [drop_replicate_append pad (u + 1) (by omega)]
          have hone : pad - (u + 1) = (pad - (u + 1) - 1) + 1 := by omega
          rw [hone]
          simp [List.replicate]
        have hcl0 : countLeadingP isJsSpace
            ('_' :: (List.replicate (pad - (u + 1) - 1) '_' ++
              (ws ++ (btext ++ follow)))) = 0 := by
          simp [countLeadingP, jsSpace_underscore_false]
        have htw0 : tryWs l
            ('_' :: (List.replicate (pad - (u + 1) - 1) '_' ++
              (ws ++ (btext ++ follow)))) 0 = none := by
          apply tryWs_eq_none
          intro w hw
          have hw0 : w = 0 := by omega
          subst hw0
          rw [List.drop_zero]
          exact prefixCI_underscore_head l hl _
        simp only [tryUnderscores, hdropu, hcl0, htw0]
        exact ih (by omega)
      · have hu1 : u + 1 = pad := by omega
        have hdropp : (List.replicate pad '_' ++ (ws ++ (btext ++ follow))).drop
            (u + 1) = ws ++ (btext ++ follow) := by
          rw [drop_replicate_append pad (u + 1) (by omega), hu1]
          simp
        have hcws : countLeadingP isJsSpace (ws ++ (btext ++ follow)) =
            ws.length :=
          countLeading_ws ws (btext ++ follow) hws
            (box_tail_head_not_ws btext follow hbh hbne)
        have htw : tryWs l (ws ++ (btext ++ follow)) ws.length = none := by
          apply tryWs_eq_none
          intro w hw
          rcases Nat.lt_or_ge w ws.length with hwlt | hwge
          · rw [List.drop_append_of_le_length (by omega)]
            have hne : ws.drop w ≠ [] := by
              intro hnil
              have := congrArg List.length hnil
              simp at this
              omega
            cases hwd : ws.drop w with
            | nil => exact absurd hwd hne
            | cons d dw =>
              have hdmem : d ∈ ws := by
                have hmem : d ∈ ws.drop w := by rw [hwd]; simp
                exact List.mem_of_mem_drop hmem
              simp only [List.cons_append]
              exact prefixCI_ws_head l hl d (hws d hdmem) _
          · have hweq : w = ws.length := by omega
            subst hweq
            rw [List.drop_left]
            exact hbt
        simp only [tryUnderscores, hdropp, hcws, htw]
        exact ih (by omega)
  exact haux pad (le_refl _)

theorem tryUnderscores_pos (label s : List Char) :
    ∀ u n, tryUnderscores label s u = some n → 0 < n := by
  intro u
  induction u with
  | zero => intro n h; simp [tryUnderscores] at h
  | succ u ih =>
    intro n h
    simp only [tryUnderscores] at h
    split at h
    · injection h with h
      omega
    · exact ih n h

theorem placeholderMatchLen_pos (label s : List Char) (n : Nat)
    (h : placeholderMatchLen label s = some n) : 0 < n :=
  tryUnderscores_pos label s _ n h

theorem replacePlaceholderRunsF_fuel (l : List Char) :
    ∀ (f1 : Nat) (s : List Char) (f2 : Nat), s.length ≤ f1 → s.length ≤ f2 →
      replacePlaceholderRunsF l f1 s = replacePlaceholderRunsF l f2 s := by
  intro f1
  induction f1 with
  | zero =>
    intro s f2 h1 _
    have : s = [] := by
      cases s with
      | nil => rfl
      | cons c r => simp at h1
    subst this
    cases f2 <;> rfl
  | succ f1 ih =>
    intro s f2 h1 h2
    cases s with
    | nil => cases f2 <;> rfl
    | cons c r =>
      cases f2 with
      | zero => simp at h2
      | succ f2 =>
        simp only [replacePlaceholderRunsF]
        cases hm : placeholderMatchLen l (c :: r) with
        | some n =>
          have hpos := placeholderMatchLen_pos l (c :: r) n hm
          have hlen : ((c :: r).drop n).length ≤ f1 := by
            simp only [List.length_drop, List.length_cons]
            simp only [List.length_cons] at h1
            omega
          have hlen2 : ((c :: r).drop n).length ≤ f2 := by
            simp only [List.length_drop, List.length_cons]
            simp only [List.length_cons] at h2
            omega
          simp only [ih _ f2 hlen hlen2]
        | none =>
          have hlen : r.length ≤ f1 := by
            simp only [List.length_cons] at h1
            omega
          have hlen2 : r.length ≤ f2 := by
            simp only [List.length_cons] at h2
            omega
          simp only [ih r f2 hlen hlen2]

theorem run_nil (l : List Char) : replacePlaceholderRuns l [] = [] := rfl

theorem run_cons_match (l : List Char) (c : Char) (r : List Char) (n : Nat)
    (hm : placeholderMatchLen l (c :: r) = some n) :
    replacePlaceholderRuns l (c :: r) =
      ('X' :: ' ' :: l) ++ replacePlaceholderRuns l ((c :: r).drop n) := by
  unfold replacePlaceholderRuns
  have hpos := placeholderMatchLen_pos l (c :: r) n hm
  have h1 : (c :: r).length = r.length + 1 := by simp
  rw [h1]
  simp only [replacePlaceholderRunsF, hm]
  rw [replacePlaceholderRunsF_fuel l r.length ((c :: r).drop n)
    ((c :: r).drop n).length (by simp; omega) (le_refl _)]

theorem run_cons_nomatch (l : List Char) (c : Char) (r : List Char)
    (hm : placeholderMatchLen l (c :: r) = none) :
    replacePlaceholderRuns l (c :: r) = c :: replacePlaceholderRuns l r := by
  unfold replacePlaceholderRuns
  have h1 : (c :: r).length = r.length + 1 := by simp
  rw [h1]
  simp only [replacePlaceholderRunsF, hm]

theorem run_inert (l : List Char) (t : List Char) (ht : '_' ∉ t) (r : List Char) :
    replacePlaceholderRuns l (t ++ r) = t ++ replacePlaceholderRuns l r := by
  induction t with
  | nil => rfl
  | cons c w ih =>
    have hc : (c == '_') = false := by
      have : c ≠ '_' := by
        intro h
        subst h
        exact ht (by simp)
      simpa using this
    simp only [List.cons_append]
    rw [run_cons_nomatch l c (w ++ r) (placeholderMatchLen_nonunderscore l c _ hc)]
    rw [ih (fun hmem => ht (by simp [hmem]))]

theorem run_box_replace (l : List Char) (pad : Nat) (hpad : 1 ≤ pad)
    (ws btext follow : List Char)
    (hws : ∀ c ∈ ws, isJsSpace c = true)
    (hbt : prefixCI l (btext ++ follow) = true)
    (hlen : btext.length = l.length)
    (hbh : ∀ c, btext.head? = some c → isJsSpace c = false)
    (hbu : '_' ∉ btext) (hbne : btext ≠ []) :
    replacePlaceholderRuns l (List.replicate pad '_' ++ (ws ++ (btext ++ follow))) =
      ('X' :: ' ' :: l) ++ replacePlaceholderRuns l follow := by
  cases pad with
  | zero => omega
  | succ u =>
    have hm := placeholderMatchLen_box_match l (u + 1) (by omega) ws btext follow
      hws hbt hbh hbu hbne
    have hshape : List.replicate (u + 1) '_' ++ (ws ++ (btext ++ follow)) =
        '_' :: (List.replicate u '_' ++ (ws ++ (btext ++ follow))) := by
      simp [List.replicate]
    rw [hshape] at hm ⊢
    rw [run_cons_match l _ _ _ hm]
    congr 1
    have hdropeq : ('_' :: (List.replicate u '_' ++ (ws ++ (btext ++ follow)))).drop
        (u + 1 + (ws.length + l.length)) = follow := by
      rw [← hshape]
      have hassoc : List.replicate (u + 1) '_' ++ (ws ++ (btext ++ follow)) =
          (List.replicate (u + 1) '_' ++ ws ++ btext) ++ follow := by
        simp [List.append_assoc]
      rw [hassoc]
      have hplen : u + 1 + (ws.length + l.length) =
          (List.replicate (u + 1) '_' ++ ws ++ btext).length := by
        simp [hlen]
      rw [hplen, List.drop_left]
    rw [hdropeq]

theorem run_box_skip (l : List Char) (hl : labelHeadOK l = true)
    (ws btext follow : List Char)
    (hws : ∀ c ∈ ws, isJsSpace c = true)
    (hbt : prefixCI l (btext ++ follow) = false)
    (hbh : ∀ c, btext.head? = some c → isJsSpace c = false)
    (hbu : '_' ∉ btext) (hbne : btext ≠ []) :
    ∀ (pad : Nat),
      replacePlaceholderRuns l
          (List.replicate pad '_' ++ (ws ++ (btext ++ follow))) =
        (List.replicate pad '_' ++ (ws ++ btext)) ++
          replacePlaceholderRuns l follow := by
  intro pad
  induction pad with
  | zero =>
    simp only [List.replicate, List.nil_append]
    have hin : '_' ∉ ws ++ btext := by
      intro hmem
      rcases List.mem_append.mp hmem with h | h
      · have := hws '_' h
        rw [jsSpace_underscore_false] at this
        exact Bool.noConfusion this
      · exact hbu h
    have := run_inert l (ws ++ btext) hin follow
    rw [List.append_assoc] at this
    exact this
  | succ u ih =>
    have hm := placeholderMatchLen_box_nomatch l hl (u + 1) ws btext follow hws
      hbt hbh hbu hbne
    have hshape : List.replicate (u + 1) '_' ++ (ws ++ (btext ++ follow)) =
        '_' :: (List.replicate u '_' ++ (ws ++ (btext ++ follow))) := by
      simp [List.replicate]
    rw [hshape] at hm ⊢
    rw [run_cons_nomatch l _ _ hm, ih]
    simp [List.replicate]

theorem renderCell_nil : renderCell [] = [] := rfl

theorem renderCell_cons (seg : CellSeg) (rest : List CellSeg) :
    renderCell (seg :: rest) = renderSeg seg ++ renderCell rest := by
  simp [renderCell]

theorem run_renderCell (m : List (String × String)) (hm : MapOK m)
    (kv : String × String) (hkv : kv ∈ m) :
    ∀ (segs : List CellSeg), (∀ s ∈ segs, SegOK m s) →
      replacePlaceholderRuns kv.2.toList (renderCell segs) =
        renderCell (segs.map (markSegLabel kv.2)) := by
  intro segs
  induction segs with
  | nil => intro _; rfl
  | cons seg rest ih =>
    intro hok
    have hseg := hok seg (by simp)
    have hrest : ∀ s ∈ rest, SegOK m s := fun s hs => hok s (by simp [hs])
    rw [renderCell_cons, List.map_cons, renderCell_cons]
    cases seg with
    | filler t =>
      have ht : '_' ∉ t := hseg
      simp only [renderSeg, markSegLabel]
      rw [run_inert kv.2.toList t ht (renderCell rest), ih hrest]
    | box pad ws k l btext =>
      obtain ⟨hpad, hws, hmem, hmap, hbu, hbh⟩ := hseg
      have hlhead : labelHeadOK l.toList = true := ((hm.1 (k, l) hmem).1)
      have hlne : l.toList ≠ [] := by
        intro hnil
        rw [hnil] at hlhead
        simp [labelHeadOK] at hlhead
      have hlenbt : btext.length = l.toList.length := by
        have := congrArg List.length hmap
        simpa using this
      have hbne : btext ≠ [] := by
        intro hnil
        rw [hnil] at hlenbt
        simp at hlenbt
        exact hlne (List.eq_nil_of_length_eq_zero hlenbt.symm)
      have hrs : renderSeg (CellSeg.box pad ws k l btext) ++ renderCell rest =
          List.replicate pad '_' ++ (ws ++ (btext ++ renderCell rest)) := by
        simp [renderSeg, List.append_assoc]
      rw [hrs]
      by_cases heq : l = kv.2
      · have hpre : prefixCI kv.2.toList (btext ++ renderCell rest) = true := by
          rw [prefixCI_congr_right kv.2.toList btext l.toList (renderCell rest)
            hmap]
          rw [← heq]
          exact prefixCI_self_append l.toList (renderCell rest)
        have hlen2 : btext.length = kv.2.toList.length := by
          rw [hlenbt, heq]
        rw [run_box_replace kv.2.toList pad hpad ws btext (renderCell rest) hws
          hpre hlen2 hbh hbu hbne, ih hrest]
        simp only [markSegLabel, heq, if_pos]
        rfl
      · have hkl : labelHeadOK kv.2.toList = true := (hm.1 kv hkv).1
        have hpre : prefixCI kv.2.toList (btext ++ renderCell rest) = false := by
          rw [prefixCI_congr_right kv.2.toList btext l.toList (renderCell rest)
            hmap]
          cases hp : prefixCI kv.2.toList (l.toList ++ renderCell rest) with
          | false => rfl
          | true =>
            exfalso
            rcases le_or_lt kv.2.toList.length l.toList.length with hle | hgt
            · have := prefixCI_append_left_of_le kv.2.toList l.toList
                (renderCell rest) hle
              rw [hp] at this
              have hfalse := hm.2.1 kv hkv (k, l) hmem (fun h => heq h.symm)
              rw [← this] at hfalse
              exact Bool.noConfusion hfalse
            · have := prefixCI_rev_of_le l.toList kv.2.toList (renderCell rest)
                hp (by omega)
              have hfalse := hm.2.1 (k, l) hmem kv hkv (fun h => heq h)
              rw [this] at hfalse
              exact Bool.noConfusion hfalse
        rw [run_box_skip kv.2.toList hkl ws btext (renderCell rest) hws hpre hbh
          hbu hbne pad, ih hrest]
        simp only [markSegLabel, heq, if_neg]
        simp [renderSeg, List.append_assoc]

theorem markSegLabel_SegOK (m : List (String × String)) (hm : MapOK m)
    (kv : String × String) (hkv : kv ∈ m) (seg : CellSeg) (hseg : SegOK m seg) :
    SegOK m (markSegLabel kv.2 seg) := by
  cases seg with
  | filler t => exact hseg
  | box pad ws k l btext =>
    by_cases heq : l = kv.2
    · simp only [markSegLabel, heq, if_pos]
      show '_' ∉ 'X' :: ' ' :: kv.2.toList
      intro hmem
      rcases List.mem_cons.mp hmem with h | hmem2
      · exact absurd h (by decide)
      · rcases List.mem_cons.mp hmem2 with h | hmem3
        · exact absurd h (by decide)
        · exact (hm.1 kv hkv).2 hmem3
    · simp only [markSegLabel, heq, if_neg]
      exact hseg

theorem fold_markCheckboxes (selected : List String)
    (m : List (String × String)) (hm : MapOK m) :
    ∀ (entries : List (String × String)), (∀ e ∈ entries, e ∈ m) →
      ∀ (segs : List CellSeg), (∀ s ∈ segs, SegOK m s) →
      entries.foldl (fun result kv =>
          if selected.contains kv.1 then
            String.mk (replacePlaceholderRuns kv.2.toList result.toList)
          else result) (String.mk (renderCell segs)) =
        String.mk (renderCell (entries.foldl
          (fun sg kv => sg.map (markSegEntry selected kv)) segs)) := by
  intro entries
  induction entries with
  | nil => intro _ segs _; rfl
  | cons kv rest ih =>
    intro hsub segs hsegs
    have hkvm : kv ∈ m := hsub kv (by simp)
    have hrestsub : ∀ e ∈ rest, e ∈ m := fun e he => hsub e (by simp [he])
    simp only [List.foldl_cons]
    by_cases hc : selected.contains kv.1 = true
    · rw [if_pos hc]
      have htl : (String.mk (renderCell segs)).toList = renderCell segs := rfl
      rw [htl, run_renderCell m hm kv hkvm segs hsegs]
      have hmapeq : segs.map (markSegEntry selected kv) =
          segs.map (markSegLabel kv.2) := by
        apply List.map_congr_left
        intro s _
        simp only [markSegEntry]
        rw [if_pos hc]
      rw [hmapeq]
      exact ih hrestsub (segs.map (markSegLabel kv.2))
        (fun s hs => by
          obtain ⟨s0, hs0, rfl⟩ := List.mem_map.mp hs
          exact markSegLabel_SegOK m hm kv hkvm s0 (hsegs s0 hs0))
    · rw [if_neg hc]
      have hmapeq : segs.map (markSegEntry selected kv) = segs := by
        have hpt : ∀ s ∈ segs, markSegEntry selected kv s = s := by
          intro s _
          simp only [markSegEntry]
          rw [if_neg hc]
        rw [List.map_congr_left hpt]
        simp
      rw [hmapeq]
      exact ih hrestsub segs hsegs

theorem foldl_map_comm {α β : Type} (f : β → α → α) :
    ∀ (entries : List β) (xs : List α),
      entries.foldl (fun sg kv => sg.map (f kv)) xs =
        xs.map (fun x => entries.foldl (fun s kv => f kv s) x) := by
  intro entries
  induction entries with
  | nil => intro xs; simp
  | cons kv rest ih =>
    intro xs
    simp only [List.foldl_cons]
    rw [ih (xs.map (f kv)), List.map_map]
    rfl

theorem fold_entries_filler (selected : List String) (t : List Char) :
    ∀ (entries : List (String × String)),
      entries.foldl (fun s kv => markSegEntry selected kv s) (CellSeg.filler t) =
        CellSeg.filler t := by
  intro entries
  induction entries with
  | nil => rfl
  | cons kv rest ih =>
    simp only [List.foldl_cons]
    have hstep : markSegEntry selected kv (CellSeg.filler t) = CellSeg.filler t := by
      simp only [markSegEntry, markSegLabel]
      split <;> rfl
    rw [hstep, ih]

theorem fold_entries_eq_markSeg (selected : List String)
    (m : List (String × String)) (hm : MapOK m) (seg : CellSeg)
    (hseg : SegOK m seg) :
    m.foldl (fun s kv => markSegEntry selected kv s) seg = markSeg selected seg := by
  cases seg with
  | filler t => rw [fold_entries_filler]; rfl
  | box pad ws k l btext =>
    obtain ⟨hpad, hws, hmem, hmap, hbu, hbh⟩ := hseg
    by_cases hk : selected.contains k = true
    · have aux : ∀ (entries : List (String × String)), (k, l) ∈ entries →
          (∀ e ∈ entries, e ∈ m) →
          entries.foldl (fun s kv => markSegEntry selected kv s)
            (CellSeg.box pad ws k l btext) =
            CellSeg.filler ('X' :: ' ' :: l.toList) := by
        intro entries
        induction entries with
        | nil => intro h _; simp at h
        | cons kv rest ih =>
          intro hin hsub
          simp only [List.foldl_cons]
          by_cases hlab : l = kv.2
          · have hkey : kv.1 = k :=
              hm.2.2 kv (hsub kv (by simp)) (k, l) (hsub (k, l) hin) hlab.symm
            have hcont : selected.contains kv.1 = true := by rw [hkey]; exact hk
            have hstep : markSegEntry selected kv (CellSeg.box pad ws k l btext) =
                CellSeg.filler ('X' :: ' ' :: l.toList) := by
              simp only [markSegEntry]
              rw [if_pos hcont]
              simp only [markSegLabel]
              rw [if_pos hlab, ← hlab]
            rw [hstep, fold_entries_filler]
          · have hstep : markSegEntry selected kv (CellSeg.box pad ws k l btext) =
                CellSeg.box pad ws k l btext := by
              simp only [markSegEntry]
              by_cases hcont : selected.contains kv.1 = true
              · rw [if_pos hcont]
                simp only [markSegLabel]
                rw [if_neg hlab]
              · rw [if_neg hcont]
            rw [hstep]
            have hin2 : (k, l) ∈ rest := by
              rcases List.mem_cons.mp hin with h | h
              · exact absurd (congrArg Prod.snd h) hlab
              · exact h
            exact ih hin2 (fun e he => hsub e (by simp [he]))
      rw [aux m hmem (fun e he => he)]
      have hkmem : k ∈ selected := by simpa using hk
      simp [markSeg, hkmem]
    · have aux : ∀ (entries : List (String × String)), (∀ e ∈ entries, e ∈ m) →
          entries.foldl (fun s kv => markSegEntry selected kv s)
            (CellSeg.box pad ws k l btext) = CellSeg.box pad ws k l btext := by
        intro entries
        induction entries with
        | nil => intro _; rfl
        | cons kv rest ih =>
          intro hsub
          simp only [List.foldl_cons]
          have hstep : markSegEntry selected kv (CellSeg.box pad ws k l btext) =
              CellSeg.box pad ws k l btext := by
            simp only [markSegEntry]
            by_cases hlab : l = kv.2
            · have hkey : kv.1 = k :=
                hm.2.2 kv (hsub kv (by simp)) (k, l) hmem hlab.symm
              rw [if_neg (by rw [hkey]; exact hk)]
            · by_cases hcont : selected.contains kv.1 = true
              · rw [if_pos hcont]
                simp only [markSegLabel]
                rw [if_neg hlab]
              · rw [if_neg hcont]
          rw [hstep]
          exact ih (fun e he => hsub e (by simp [he]))
      rw [aux m (fun e he => he)]
      have hknot : k ∉ selected := by
        intro hmem2
        exact hk (by simpa using hmem2)
      simp [markSeg, hknot]

/-- Claim C6 counterexample. -/
theorem c6_counterexample :
    markCheckboxes "__  Textbook" MATERIALS_CHECKBOXES ["textbook"] = "X Textbook" ∧
    markCheckboxes "__  Textbook" MATERIALS_CHECKBOXES ["textbook"] ≠
      "X  Textbook" := by
  refine ⟨rfl, ?_⟩
  intro h
  exact absurd (rfl.symm.trans h) (by decide)

/-- Claim C6 as amended: for every checkbox label map whose labels satisfy the
decidable `MapOK` conditions (all five maps of the template filler do), every
selected-key list, and every cell XML that interleaves underscore-free text with
underscore placeholders of the map's labels, `markCheckboxes` rewrites exactly the
placeholders of the selected keys — each becomes `X`, a single space, and the label in
the map's casing, normalizing the placeholder's whitespace run and the label's casing
— and leaves every non-selected placeholder and all text outside the rewritten
placeholders unchanged; moreover, on arbitrary cell text, a selection containing no
map key changes nothing. -/
theorem c6_markCheckboxes_amended :
    (∀ (checkboxMap : List (String × String)) (selected : List String)
        (segs : List CellSeg),
      MapOK checkboxMap → (∀ seg ∈ segs, SegOK checkboxMap seg) →
      markCheckboxes (String.mk (renderCell segs)) checkboxMap selected =
        String.mk (renderCell (segs.map (markSeg selected)))) ∧
    (∀ (text : String) (checkboxMap : List (String × String))
        (selected : List String),
      (∀ kv ∈ checkboxMap, kv.1 ∉ selected) →
      markCheckboxes text checkboxMap selected = text) := by
  constructor
  · intro m selected segs hm hsegs
    unfold markCheckboxes
    rw [fold_markCheckboxes selected m hm m (fun e he => he) segs hsegs]
    congr 1
    rw [foldl_map_comm (markSegEntry selected) m segs]
    congr 1
    apply List.map_congr_left
    intro seg hseg
    exact fold_entries_eq_markSeg selected m hm seg (hsegs seg hseg)
  · exact markCheckboxes_id

theorem c6_witness :
    markCheckboxes "___ Textbook\n__  computer\n___ Labs" MATERIALS_CHECKBOXES
      ["computer", "posters"] = "___ Textbook\nX Computer\n___ Labs" :=
  c6_markCheckboxes_amended.1 MATERIALS_CHECKBOXES ["computer", "posters"]
    [CellSeg.box 3 [' '] "textbook" "Textbook" "Textbook".toList,
     CellSeg.filler "\n".toList,
     CellSeg.box 2 [' ', ' '] "computer" "Computer" "computer".toList,
     CellSeg.filler "\n".toList,
     CellSeg.box 3 [' '] "labs" "Labs" "Labs".toList]
    (by decide) (by decide)

/-- Claim C8 counterexample. -/
theorem c8_counterexample :
    studentHandoutNameSlug hyphenHandout = "a-b" ∧
    ("a-b".toList.all (fun c => c.isAlphanum || c == '_')) = false ∧
    getStudentHandoutFilename hyphenHandout = "a-b_StudentHandout.docx" :=
  ⟨rfl, rfl, rfl⟩

/-- Claim C8 as amended. -/
theorem c8_filename_amended :
    (∀ handout : StudentHandout,
      ((studentHandoutNameSlug handout).toList.all
        (fun c => c.isAlphanum || c == '_' || c == '-')) = true ∧
      (studentHandoutNameSlug handout).length ≤ 25 ∧
      getStudentHandoutFilename handout =
        studentHandoutNameSlug handout ++ "_StudentHandout.docx") ∧
    getStudentHandoutFilename cameraHandout =
      "Camera_Parts__Lighting_Gu_StudentHandout.docx" := by
  refine ⟨fun handout => ⟨?_, ?_, rfl⟩, rfl⟩
  · rw [List.all_eq_true]
    intro c hc
    have hc2 : c ∈ ((collapseWs (if jsTruthy handout.name then handout.name
        else "Handout").toList).filter isSlugChar) := by
      have : (studentHandoutNameSlug handout).toList =
          ((collapseWs (if jsTruthy handout.name then handout.name
            else "Handout").toList).filter isSlugChar).take 25 := rfl
      rw [this] at hc
      exact List.take_subset _ _ hc
    have := List.of_mem_filter hc2
    simpa [isSlugChar] using this
  · have : (studentHandoutNameSlug handout).length =
        (((collapseWs (if jsTruthy handout.name then handout.name
          else "Handout").toList).filter isSlugChar).take 25).length := rfl
    rw [this, List.length_take]
    omega

/-- Claim C1: for every valid lesson plan with N ≥ 1 days and every outcome of the
template-loading collaborator, `generateAllDocuments` returns at least N files tagged
`lesson_plan` (exactly one per day, named in day order), exactly one file tagged
`teacher_handout`, and one file tagged `student_handout` per `student_handouts` entry,
all carrying the OOXML wordprocessing MIME type. -/
theorem c1_generateAllDocuments_file_counts (loadResult : Except String Zip)
    (lp : LessonPlanInput) (N : Nat) (hN : lp.days.length = N) (hpos : 1 ≤ N) :
    N ≤ ((generateAllDocuments loadResult lp).filter
        (fun f => f.type == FileTag.lesson_plan)).length ∧
    ((generateAllDocuments loadResult lp).filter
        (fun f => f.type == FileTag.lesson_plan)).map GeneratedFile.name =
      lp.days.enum.map (fun p =>
        lessonPlanFileName (padStart2 (jsNumToString (jsParseInt lp.week))) (p.1 + 1)
          p.2.topic) ∧
    ((generateAllDocuments loadResult lp).filter
        (fun f => f.type == FileTag.teacher_handout)).length = 1 ∧
    ((generateAllDocuments loadResult lp).filter
        (fun f => f.type == FileTag.student_handout)).length =
      (lp.student_handouts.getD []).length ∧
    (∀ f ∈ generateAllDocuments loadResult lp, f.mimeType = OOXML_MIME) := by
  simp only [generateAllDocuments]
  set tb : Option Zip := (match loadResult with
    | .ok b => some b
    | .error _ => none) with htb
  set wn := jsParseInt lp.week with hwn
  set ws := padStart2 (jsNumToString wn) with hws
  have hdays_lp := filter_map_eq_self (fun q => dayFileOf tb lp wn ws q.1 q.2)
    (fun f => f.type == FileTag.lesson_plan) lp.days.enum (fun _ => rfl)
  have hdays_th := filter_map_eq_nil (fun q => dayFileOf tb lp wn ws q.1 q.2)
    (fun f => f.type == FileTag.teacher_handout) lp.days.enum (fun _ => rfl)
  have hdays_sh := filter_map_eq_nil (fun q => dayFileOf tb lp wn ws q.1 q.2)
    (fun f => f.type == FileTag.student_handout) lp.days.enum (fun _ => rfl)
  have hstu_lp := filter_map_eq_nil (studentFileOf wn)
    (fun f => f.type == FileTag.lesson_plan) (lp.student_handouts.getD [])
    (fun _ => rfl)
  have hstu_th := filter_map_eq_nil (studentFileOf wn)
    (fun f => f.type == FileTag.teacher_handout) (lp.student_handouts.getD [])
    (fun _ => rfl)
  have hstu_sh := filter_map_eq_self (studentFileOf wn)
    (fun f => f.type == FileTag.student_handout) (lp.student_handouts.getD [])
    (fun _ => rfl)
  refine ⟨?_, ?_, ?_, ?_, ?_⟩
  · rw [List.filter_append, List.filter_append, hdays_lp, hstu_lp]
    simp [hN]
  · rw [List.filter_append, List.filter_append, hdays_lp, hstu_lp]
    have hteach : List.filter (fun f => f.type == FileTag.lesson_plan)
        [teacherFileOf lp wn] = [] := rfl
    rw [hteach, List.append_nil, List.append_nil, List.map_map]
    rfl
  · rw [List.filter_append, List.filter_append, hdays_th, hstu_th]
    rfl
  · rw [List.filter_append, List.filter_append, hdays_sh, hstu_sh]
    simp [teacherFileOf]
  · intro f hf
    rcases List.mem_append.mp hf with hf1 | hf2
    · rcases List.mem_append.mp hf1 with hfa | hfb
      · obtain ⟨p, _, rfl⟩ := List.mem_map.mp hfa
        rfl
      · rcases List.mem_cons.mp hfb with rfl | hfc
        · rfl
        · simp at hfc
    · obtain ⟨handout, _, rfl⟩ := List.mem_map.mp hf2
      rfl

theorem c1_witness :
    ((generateAllDocuments (Except.error "load failed") sampleLessonPlan).filter
      (fun f => f.type == FileTag.teacher_handout)).length = 1 :=
  (c1_generateAllDocuments_file_counts (Except.error "load failed") sampleLessonPlan
    1 rfl (by decide)).2.2.1

/-- Claim C3: when the template-loading collaborator throws (for any error), the
exception is not propagated: `generateAllDocuments` still returns exactly one
`lesson_plan` file per day, each generated by the scratch generator
`generateLessonPlanDocx` on that day. -/
theorem c3_generateAllDocuments_scratch_fallback (err : String)
    (lp : LessonPlanInput) :
    ((generateAllDocuments (Except.error err) lp).filter
      (fun f => f.type == FileTag.lesson_plan)) =
      lp.days.enum.map (fun p =>
        ({ name := lessonPlanFileName (padStart2 (jsNumToString (jsParseInt lp.week)))
            (p.1 + 1) p.2.topic,
           content := DocBuffer.lessonPlanScratch p.2 (jsParseInt lp.week) (p.1 + 1)
             lp.unit,
           mimeType := OOXML_MIME, type := FileTag.lesson_plan } : GeneratedFile)) ∧
    ((generateAllDocuments (Except.error err) lp).filter
      (fun f => f.type == FileTag.lesson_plan)).length = lp.days.length := by
  simp only [generateAllDocuments]
  set wn := jsParseInt lp.week with hwn
  set ws := padStart2 (jsNumToString wn) with hws
  have hfilter : ((lp.days.enum.map (fun p => dayFileOf none lp wn ws p.1 p.2) ++
      [teacherFileOf lp wn] ++
      (lp.student_handouts.getD []).map (studentFileOf wn)).filter
        (fun f => f.type == FileTag.lesson_plan)) =
      lp.days.enum.map (fun p => dayFileOf none lp wn ws p.1 p.2) := by
    have hdays_lp := filter_map_eq_self (fun q => dayFileOf none lp wn ws q.1 q.2)
      (fun f => f.type == FileTag.lesson_plan) lp.days.enum (fun _ => rfl)
    have hstu_lp := filter_map_eq_nil (studentFileOf wn)
      (fun f => f.type == FileTag.lesson_plan) (lp.student_handouts.getD [])
      (fun _ => rfl)
    rw [List.filter_append, List.filter_append, hdays_lp, hstu_lp]
    have hteach : List.filter (fun f => f.type == FileTag.lesson_plan)
        [teacherFileOf lp wn] = [] := rfl
    rw [hteach, List.append_nil, List.append_nil]
  constructor
  · rw [hfilter]
    rfl
  · rw [hfilter]
    simp

/-- Claim C7: for odd item counts, `cardGrid` and `checklistGrid` produce tables whose
rows all have exactly two cells, pair items by consecutive index (row k holds items 2k
and 2k+1), and whose final row holds exactly one populated cell (built from the last
item) and one empty placeholder cell. -/
theorem c7_grid_odd_padding (items : List (String × String)) (opts : CardGridOpts)
    (sitems : List String) (copts : ChecklistGridOpts)
    (hodd : items.length % 2 = 1) (hsodd : sitems.length % 2 = 1)
    (w : Nat) (hw : w = opts.cardWidth.getD TEACHER_WIDTHS_VOCAB_CARD)
    (alt : Bool) (halt : alt = opts.alternateColors.getD true)
    (col1 : String) (hc1 : col1 = opts.color1.getD COLORS_LIGHT_BLUE)
    (col2 : String) (hc2 : col2 = opts.color2.getD COLORS_LIGHT_GRAY)
    (cw : Nat) (hcw : cw = copts.colWidth.getD TEACHER_WIDTHS_HALF_COL) :
    ((∀ row ∈ (cardGrid items opts).rows, row.cells.length = 2) ∧
     (cardGrid items opts).rows.length = (items.length + 1) / 2 ∧
     (∀ k x y, items[2 * k]? = some x → items[2 * k + 1]? = some y →
       (cardGrid items opts).rows[k]? =
         some ⟨[cardCell w alt col1 col2 k x, cardCell w alt col1 col2 k y]⟩) ∧
     (∃ last, items.getLast? = some last ∧
       (cardGrid items opts).rows.getLast? =
         some ⟨[cardCell w alt col1 col2 ((items.length - 1) / 2) last,
                placeholderCell w]⟩)) ∧
    ((∀ row ∈ (checklistGrid sitems copts).rows, row.cells.length = 2) ∧
     (checklistGrid sitems copts).rows.length = (sitems.length + 1) / 2 ∧
     (∀ k x y, sitems[2 * k]? = some x → sitems[2 * k + 1]? = some y →
       (checklistGrid sitems copts).rows[k]? =
         some ⟨[checklistCell cw k x, checklistCell cw k y]⟩) ∧
     (∃ last, sitems.getLast? = some last ∧
       (checklistGrid sitems copts).rows.getLast? =
         some ⟨[checklistCell cw ((sitems.length - 1) / 2) last,
                placeholderCell cw]⟩)) := by
  subst hw halt hc1 hc2 hcw
  constructor
  · have hrows : (cardGrid items opts).rows =
        cardGridRows (opts.cardWidth.getD TEACHER_WIDTHS_VOCAB_CARD)
          (opts.alternateColors.getD true) (opts.color1.getD COLORS_LIGHT_BLUE)
          (opts.color2.getD COLORS_LIGHT_GRAY) items 0 := rfl
    set w := opts.cardWidth.getD TEACHER_WIDTHS_VOCAB_CARD
    set alt := opts.alternateColors.getD true
    set col1 := opts.color1.getD COLORS_LIGHT_BLUE
    set col2 := opts.color2.getD COLORS_LIGHT_GRAY
    have hlen1 : 1 ≤ items.length := by omega
    refine ⟨?_, ?_, ?_, ?_⟩
    · intro row hrow
      rw [hrows] at hrow
      exact cardGridRows_cells_two w alt col1 col2 items 0 row hrow
    · rw [hrows, cardGridRows_length]
    · intro k x y hx hy
      rw [hrows, cardGridRows_getElem, hx, hy]
      simp
    · have hidx : items.length - 1 < items.length := by omega
      refine ⟨items[items.length - 1], ?_, ?_⟩
      · rw [List.getLast?_eq_getElem?]
        exact List.getElem?_eq_getElem hidx
      · rw [List.getLast?_eq_getElem?, hrows, cardGridRows_length,
          cardGridRows_getElem]
        have h2k : 2 * ((items.length + 1) / 2 - 1) = items.length - 1 := by omega
        rw [h2k, List.getElem?_eq_getElem hidx]
        have h2k1 : items.length - 1 + 1 = items.length := by omega
        rw [h2k1, List.getElem?_eq_none_iff.mpr (le_refl _)]
        have hk : 0 + ((items.length + 1) / 2 - 1) = (items.length - 1) / 2 := by
          omega
        rw [hk]
  · have hrows : (checklistGrid sitems copts).rows =
        checklistGridRows (copts.colWidth.getD TEACHER_WIDTHS_HALF_COL) sitems 0 :=
      rfl
    set cw := copts.colWidth.getD TEACHER_WIDTHS_HALF_COL
    have hlen1 : 1 ≤ sitems.length := by omega
    refine ⟨?_, ?_, ?_, ?_⟩
    · intro row hrow
      rw [hrows] at hrow
      exact checklistGridRows_cells_two cw sitems 0 row hrow
    · rw [hrows, checklistGridRows_length]
    · intro k x y hx hy
      rw [hrows, checklistGridRows_getElem, hx, hy]
      simp
    · have hidx : sitems.length - 1 < sitems.length := by omega
      refine ⟨sitems[sitems.length - 1], ?_, ?_⟩
      · rw [List.getLast?_eq_getElem?]
        exact List.getElem?_eq_getElem hidx
      · rw [List.getLast?_eq_getElem?, hrows, checklistGridRows_length,
          checklistGridRows_getElem]
        have h2k : 2 * ((sitems.length + 1) / 2 - 1) = sitems.length - 1 := by omega
        rw [h2k, List.getElem?_eq_getElem hidx]
        have h2k1 : sitems.length - 1 + 1 = sitems.length := by omega
        rw [h2k1, List.getElem?_eq_none_iff.mpr (le_refl _)]
        have hk : 0 + ((sitems.length + 1) / 2 - 1) = (sitems.length - 1) / 2 := by
          omega
        rw [hk]

theorem c7_witness :
    ((cardGrid [("a", "1"), ("b", "2"), ("c", "3")] ⟨none, none, none, none⟩).rows.length
      = 2) ∧
    ((checklistGrid ["x", "y", "z"] ⟨none⟩).rows.length = 2) := by
  have h := c7_grid_odd_padding [("a", "1"), ("b", "2"), ("c", "3")]
    ⟨none, none, none, none⟩ ["x", "y", "z"] ⟨none⟩ (by decide) (by decide)
    TEACHER_WIDTHS_VOCAB_CARD rfl true rfl COLORS_LIGHT_BLUE rfl COLORS_LIGHT_GRAY rfl
    TEACHER_WIDTHS_HALF_COL rfl
  exact ⟨h.1.2.1, h.2.2.1⟩
